import Mathlib

/-!
Verification of the weather repository's daily-aggregation core.

The Go source (weather.go) is embedded shallowly:

* `float64` values are idealized as exact extended rationals (`ERat`), with
  IEEE-754 infinities and NaN but exact (unrounded) arithmetic.
* `time.Time` is modelled as `Timestamp`: an absolute unix second together
  with a fixed zone offset in seconds (the spec's non-goal list excludes
  timezone-database behaviour beyond "the timestamp's already-resolved
  offset", so a location is modelled by its offset).
* `Time.Format("20060102")` and `time.ParseInLocation("20060102", key, loc)`
  are modelled by `formatYYYYMMDD` / `parseInLocation`, built on the civil
  calendar algorithms of Go's time package (absDate / daysSinceEpoch,
  transcribed below as `absYear`, `yearAcc`, `monthDayFromYday`,
  `civilFromDays`, `daysFromCivil`).  The model renders years as 4 zero
  padded digits, which coincides with Go for years 0..9999; theorems about
  formatted keys therefore carry an explicit day-range hypothesis
  (`InRangeDay`, years 1..9999).
* `sort.Strings` sorts ascending by byte-wise lexicographic comparison; it
  is modelled by insertion sort with `strLe`, which has the same sorted
  ascending result (the sorted keys are pairwise distinct, so the sorted
  permutation is unique).
* Go maps are observed only through lookup; `days` is modelled as an
  association list with the same lookup/update semantics.
-/

/-- Go isLeap: leap years in the proleptic Gregorian calendar. -/
def isLeap (y : Int) : Bool := y % 4 == 0 && (y % 100 != 0 || y % 400 == 0)

/-- Cumulative day counts before each (1-based) month in a non-leap year,
Go's daysBefore table. -/
def daysBefore : Int → Int
  | 1 => 0
  | 2 => 31
  | 3 => 59
  | 4 => 90
  | 5 => 120
  | 6 => 151
  | 7 => 181
  | 8 => 212
  | 9 => 243
  | 10 => 273
  | 11 => 304
  | 12 => 334
  | _ => 365

/-- Year extraction from days-since-0001-01-01, following the 400/100/4/1
year cascade of Go time.absDate: returns (year - 1, zero-based day-of-year). -/
def absYear (d0 : Int) : Int × Int :=
  let n1 := d0 / 146097
  let d1 := d0 - 146097 * n1
  let n2 := d1 / 36524 - d1 / 36524 / 4
  let d2 := d1 - 36524 * n2
  let n3 := d2 / 1461
  let d3 := d2 - 1461 * n3
  let n4 := d3 / 365 - d3 / 365 / 4
  (400 * n1 + 100 * n2 + 4 * n3 + n4, d3 - 365 * n4)

/-- Days in years 1..y0, i.e. days from 0001-01-01 to the start of year
y0 + 1 (Go daysSinceEpoch). -/
def yearAcc (y0 : Int) : Int :=
  let n1 := y0 / 400
  let y1 := y0 - 400 * n1
  let n2 := y1 / 100
  let y2 := y1 - 100 * n2
  let n3 := y2 / 4
  let y3 := y2 - 4 * n3
  146097 * n1 + 36524 * n2 + 1461 * n3 + 365 * y3

/-- Month and day-of-month from a zero-based day-of-year, following the
tail of Go time.absDate (full = true). -/
def monthDayFromYday (leap : Bool) (yday : Int) : Int × Int :=
  if leap = true ∧ yday = 59 then (2, 29)
  else
    let day := if leap = true ∧ 59 < yday then yday - 1 else yday
    let m0 := day / 31
    if daysBefore (m0 + 2) ≤ day then (m0 + 2, day - daysBefore (m0 + 2) + 1)
    else (m0 + 1, day - daysBefore (m0 + 1) + 1)

/-- Zero-based day-of-year of a calendar date, the day-of-year part of
Go's Date-to-absolute conversion. -/
def doyFromMonthDay (leap : Bool) (m d : Int) : Int :=
  daysBefore m + (if leap = true ∧ 3 ≤ m then 1 else 0) + (d - 1)

/-- (year, month, day) of a days-since-1970-01-01 count, as Go absDate. -/
def civilFromDays (z : Int) : Int × Int × Int :=
  let p := absYear (z + 719162)
  let md := monthDayFromYday (isLeap (p.1 + 1)) p.2
  (p.1 + 1, md.1, md.2)

/-- days-since-1970-01-01 of a (year, month, day), as Go's Date pipeline. -/
def daysFromCivil (y m d : Int) : Int :=
  yearAcc (y - 1) + doyFromMonthDay (isLeap y) m d - 719162

/-- The decimal digit characters. -/
def digitChar : Nat → Char
  | 0 => '0'
  | 1 => '1'
  | 2 => '2'
  | 3 => '3'
  | 4 => '4'
  | 5 => '5'
  | 6 => '6'
  | 7 => '7'
  | 8 => '8'
  | _ => '9'

/-- Fixed-width zero-padded decimal rendering, most significant digit
first: padDigits w n are the w low-order decimal digits of n. -/
def padDigits : Nat → Nat → List Char
  | 0, _ => []
  | w + 1, n => digitChar (n / 10 ^ w) :: padDigits w (n % 10 ^ w)

/-- Numeric value of a decimal digit character. -/
def digitVal (c : Char) : Option Nat :=
  if '0' ≤ c ∧ c ≤ '9' then some (c.toNat - 48) else none

/-- Value of a list of decimal digit characters (none if any character is
not a digit). -/
def parseDigits : List Char → Option Nat
  | [] => some 0
  | c :: cs =>
    match digitVal c, parseDigits cs with
    | some v, some n => some (v * 10 ^ cs.length + n)
    | _, _ => none

/-- Byte-wise lexicographic strict comparison of character lists (the keys
compared are ASCII, where Go's byte order and code point order agree). -/
def charListLt : List Char → List Char → Bool
  | [], [] => false
  | [], _ :: _ => true
  | _ :: _, [] => false
  | a :: as, b :: bs => if a < b then true else if b < a then false else charListLt as bs

/-- Go's s < t on strings (byte-wise lexicographic). -/
def strLt (s t : String) : Bool := charListLt s.data t.data

/-- Go's s <= t on strings. -/
def strLe (s t : String) : Bool := !(strLt t s)

/-- A time.Time: absolute unix seconds plus the fixed offset (seconds east
of UTC) of its location. -/
structure Timestamp where
  unix : Int
  offset : Int
deriving DecidableEq, Repr

/-- The days-since-epoch of the civil day a timestamp falls on in its own
zone (Go converts unix + offset to absolute days). -/
def wallDay (t : Timestamp) : Int := (t.unix + t.offset) / 86400

/-- t.Format("20060102"): the civil date of t in t's own zone, rendered as
4 + 2 + 2 zero-padded decimal digits.  Matches Go for years 0..9999. -/
def formatYYYYMMDD (t : Timestamp) : String :=
  let c := civilFromDays (wallDay t)
  String.mk (padDigits 4 c.1.toNat ++ padDigits 2 c.2.1.toNat ++ padDigits 2 c.2.2.toNat)

/-- Day-key to days-since-epoch: reads YYYYMMDD back.  Go additionally
rejects out-of-range month/day values, but inside Daily the parser is only
ever applied to keys produced by Format, on which Go's parse succeeds. -/
def parseDay (s : String) : Option Int :=
  if s.data.length = 8 then
    match parseDigits (s.data.take 4), parseDigits ((s.data.drop 4).take 2),
        parseDigits (s.data.drop 6) with
    | some y, some m, some d => some (daysFromCivil y m d)
    | _, _, _ => none
  else none

/-- time.ParseInLocation("20060102", key, loc) for a fixed-offset location:
midnight of the parsed civil day in that zone.  On a parse failure Go
returns the zero Time (0001-01-01 00:00:00 UTC) and Daily ignores the
error; that branch is unreachable for keys produced by Format. -/
def parseInLocation (key : String) (off : Int) : Timestamp :=
  match parseDay key with
  | some z => ⟨z * 86400 - off, off⟩
  | none => ⟨-62135596800, 0⟩

/-- IEEE-754 float64 idealized as exact extended rationals: finite values
are exact rationals, plus the two infinities and NaN. -/
inductive ERat where
  | nan
  | negInf
  | posInf
  | fin (q : ℚ)
deriving DecidableEq, Repr

/-- IEEE strict less-than (every comparison with NaN is false). -/
def ERat.blt : ERat → ERat → Bool
  | nan, _ => false
  | _, nan => false
  | negInf, negInf => false
  | negInf, _ => true
  | fin _, negInf => false
  | fin a, fin b => a < b
  | fin _, posInf => true
  | posInf, _ => false

/-- IEEE addition (idealized: exact on finite values). -/
def ERat.add : ERat → ERat → ERat
  | nan, _ => nan
  | _, nan => nan
  | posInf, negInf => nan
  | negInf, posInf => nan
  | posInf, _ => posInf
  | _, posInf => posInf
  | negInf, _ => negInf
  | _, negInf => negInf
  | fin a, fin b => fin (a + b)

/-- IEEE division of a float by a nonnegative integer count (idealized:
exact on finite values); division by zero yields signed infinity, and
0/0 yields NaN, as in IEEE-754. -/
def ERat.divNat : ERat → Nat → ERat
  | nan, _ => nan
  | fin q, 0 => if 0 < q then posInf else if q < 0 then negInf else nan
  | posInf, 0 => posInf
  | negInf, 0 => negInf
  | fin q, n + 1 => fin (q / ((n + 1 : Nat) : ℚ))
  | posInf, _ => posInf
  | negInf, _ => negInf

/-- The rational value of a finite ERat (0 on non-finite values). -/
def ERat.toRat : ERat → ℚ
  | fin q => q
  | _ => 0

/-- Whether an ERat is a finite value. -/
def ERat.isFinite : ERat → Bool
  | fin _ => true
  | _ => false

/-- The Weather record of weather.go. -/
structure Weather where
  date : Timestamp
  temperature : ERat
  temperatureMin : ERat
  temperatureMax : ERat
  humidity : ERat
deriving DecidableEq, Repr

/-- type Forecast []Weather. -/
abbrev Forecast := List Weather

/-- w.Date.Format("20060102"), the bucket key of an observation. -/
def dayKey (w : Weather) : String := formatYYYYMMDD w.date

/-- Forecast.MaximumTemperature: fold of "if w.TemperatureMax > max" from
negative infinity. -/
def Forecast.maximumTemperature (f : Forecast) : ERat :=
  f.foldl (fun mx w => if ERat.blt mx w.temperatureMax then w.temperatureMax else mx)
    ERat.negInf

/-- Forecast.MinimumTemperature: fold of "if w.TemperatureMin < min" from
positive infinity. -/
def Forecast.minimumTemperature (f : Forecast) : ERat :=
  f.foldl (fun mn w => if ERat.blt w.temperatureMin mn then w.temperatureMin else mn)
    ERat.posInf

/-- Forecast.AverageTemperature: sum of temperatures divided by the length. -/
def Forecast.averageTemperature (f : Forecast) : ERat :=
  (f.foldl (fun acc w => acc.add w.temperature) (ERat.fin 0)).divNat f.length

/-- Forecast.AverageHumidity: sum of humidities divided by the length. -/
def Forecast.averageHumidity (f : Forecast) : ERat :=
  (f.foldl (fun acc w => acc.add w.humidity) (ERat.fin 0)).divNat f.length

/-- Lookup in the days map (modelled as an association list). -/
def lookupDays : List (String × List Weather) → String → Option (List Weather)
  | [], _ => none
  | (k', b) :: rest, k => if k' = k then some b else lookupDays rest k

/-- days[key] = append(days[key], w). -/
def insertDays : List (String × List Weather) → String → Weather → List (String × List Weather)
  | [], k, w => [(k, [w])]
  | (k', b) :: rest, k, w =>
    if k' = k then (k', b ++ [w]) :: rest else (k', b) :: insertDays rest k w

/-- The loop state of Forecast.Daily's grouping pass: the location captured
from the first observation, the keys in first-encounter order, and the
days map. -/
structure GroupState where
  loc : Option Int
  keys : List String
  days : List (String × List Weather)

/-- One iteration of Daily's grouping loop. -/
def groupStep (st : GroupState) (w : Weather) : GroupState :=
  let loc := match st.loc with
    | none => some w.date.offset
    | some l => some l
  let key := dayKey w
  let keys := if (lookupDays st.days key).isSome then st.keys else st.keys ++ [key]
  ⟨loc, keys, insertDays st.days key w⟩

/-- The grouping pass of Forecast.Daily. -/
def groupByDay (f : Forecast) : GroupState := f.foldl groupStep ⟨none, [], []⟩

/-- sort.Strings: ascending byte-wise lexicographic sort. -/
def sortStrings (l : List String) : List String :=
  List.insertionSort (fun a b => strLe a b = true) l

/-- Forecast.Daily: group by formatted day key, sort the keys, and emit one
aggregate summary per key. -/
def Forecast.daily (f : Forecast) : Forecast :=
  let st := groupByDay f
  let keys := sortStrings st.keys
  keys.map fun key =>
    let hourly : Forecast := (lookupDays st.days key).getD []
    { date := parseInLocation key (st.loc.getD 0)
      humidity := hourly.averageHumidity
      temperature := hourly.averageTemperature
      temperatureMin := hourly.minimumTemperature
      temperatureMax := hourly.maximumTemperature : Weather }

/-- The main block decoded from the current-weather endpoint's response. -/
structure OWMain where
  temp : ERat
  tempMin : ERat
  tempMax : ERat
  humidity : ERat

/-- The response decoded by Client.GetCurrentWeather. -/
structure OWCurrentResponse where
  dt : Int
  main : OWMain

/-- The Weather value Client.GetCurrentWeather builds from a decoded
response (time.Unix renders the timestamp in the process-local zone, passed
here as localOffset).  The Go struct literal omits the Humidity field, so it
is the float64 zero value. -/
def getCurrentWeather (localOffset : Int) (resp : OWCurrentResponse) : Weather :=
  { date := ⟨resp.dt, localOffset⟩
    temperature := resp.main.temp
    temperatureMax := resp.main.tempMax
    temperatureMin := resp.main.tempMin
    humidity := ERat.fin 0 }

/-- Day range whose years render as exactly four digits with a leading
nonzero-year calendar date: 0001-01-01 .. 9999-12-31. -/
def InRangeDay (z : Int) : Prop := -719162 ≤ z ∧ z ≤ 2932896

instance (z : Int) : Decidable (InRangeDay z) := by unfold InRangeDay; infer_instance

/-- All observations of a forecast fall on days formatting to 8-digit keys. -/
def InRangeForecast (f : Forecast) : Prop := ∀ w ∈ f, InRangeDay (wallDay w.date)

instance (f : Forecast) : Decidable (InRangeForecast f) := by
  unfold InRangeForecast; exact List.decidableBAll _ f

/-- All four numeric fields of every observation are finite floats. -/
def AllFinite (f : Forecast) : Prop :=
  ∀ w ∈ f, w.temperature.isFinite = true ∧ w.temperatureMin.isFinite = true ∧
    w.temperatureMax.isFinite = true ∧ w.humidity.isFinite = true

instance (f : Forecast) : Decidable (AllFinite f) := by
  unfold AllFinite; exact List.decidableBAll _ f

/-- An observation at day z (days since epoch), hour h, offset off, with
the four numeric fields. -/
def mkObs (z h off : Int) (t tmin tmax hum : ℚ) : Weather :=
  { date := ⟨z * 86400 + h * 3600 - off, off⟩
    temperature := ERat.fin t
    temperatureMin := ERat.fin tmin
    temperatureMax := ERat.fin tmax
    humidity := ERat.fin hum }

/-- Example forecast: one day (2024-01-01, UTC), three observations, the
spec's worked example values. -/
def exampleOneDay : Forecast :=
  [mkObs 19723 6 0 60 50 70 40,
   mkObs 19723 12 0 70 48 75 60,
   mkObs 19723 18 0 65 55 68 50]

/-- Example forecast: days 2024-01-03, 2024-01-01, 2024-01-02 in that input
order (the spec's out-of-order example). -/
def exampleThreeDays : Forecast :=
  [mkObs 19725 9 0 50 45 55 80,
   mkObs 19723 9 0 40 35 45 70,
   mkObs 19724 9 0 30 25 35 60]

/-- The summary that Daily produces for the 2024-01-01 bucket of
`exampleThreeDays`, spelled as in the pipeline. -/
def sample20240101 : Weather :=
  { date := parseInLocation "20240101" ((groupByDay exampleThreeDays).loc.getD 0)
    humidity := Forecast.averageHumidity
      ((lookupDays (groupByDay exampleThreeDays).days "20240101").getD [])
    temperature := Forecast.averageTemperature
      ((lookupDays (groupByDay exampleThreeDays).days "20240101").getD [])
    temperatureMin := Forecast.minimumTemperature
      ((lookupDays (groupByDay exampleThreeDays).days "20240101").getD [])
    temperatureMax := Forecast.maximumTemperature
      ((lookupDays (groupByDay exampleThreeDays).days "20240101").getD []) }

theorem isLeap_iff (y : Int) :
    isLeap y = true ↔ (y % 4 = 0 ∧ (y % 100 ≠ 0 ∨ y % 400 = 0)) := by
  simp [isLeap]

theorem absYear_spec (d0 : Int) : ∃ n1 n2 n3 n4 yd,
    (absYear d0).1 = 400 * n1 + 100 * n2 + 4 * n3 + n4 ∧
    (absYear d0).2 = yd ∧
    0 ≤ n2 ∧ n2 ≤ 3 ∧ 0 ≤ n3 ∧ n3 ≤ 24 ∧ 0 ≤ n4 ∧ n4 ≤ 3 ∧
    0 ≤ yd ∧
    d0 = 146097 * n1 + 36524 * n2 + 1461 * n3 + 365 * n4 + yd ∧
    yd ≤ 364 + (if isLeap (400 * n1 + 100 * n2 + 4 * n3 + n4 + 1) then 1 else 0) := by
  simp only [absYear]
  set q1 := d0 / 146097 with hq1
  set d1 := d0 - 146097 * q1 with hd1
  set q2 := d1 / 36524 with hq2
  set n2 := q2 - q2 / 4 with hn2
  set d2 := d1 - 36524 * n2 with hd2
  set q3 := d2 / 1461 with hq3
  set d3 := d2 - 1461 * q3 with hd3
  set q4 := d3 / 365 with hq4
  set n4 := q4 - q4 / 4 with hn4
  refine ⟨q1, n2, q3, n4, d3 - 365 * n4, rfl, rfl, ?_, ?_, ?_, ?_, ?_, ?_, ?_, ?_, ?_⟩
  · omega
  · omega
  · omega
  · omega
  · omega
  · omega
  · omega
  · omega
  · have hb1 : 0 ≤ d1 ∧ d1 ≤ 146096 := by omega
    have hb2 : 0 ≤ d2 ∧ d2 ≤ 36524 := by omega
    have hb2' : d2 = 36524 → d1 = 146096 ∧ n2 = 3 := by omega
    have hb3 : 0 ≤ d3 ∧ d3 ≤ 1460 := by omega
    have hb3' : d3 = 1460 ∧ q3 = 24 → d2 = 36524 := by omega
    have hyd : d3 - 365 * n4 ≤ 364 ∨ (d3 - 365 * n4 = 365 ∧ d3 = 1460) := by omega
    rcases hyd with h | ⟨h365, h1460⟩
    · split <;> omega
    · have hq4' : q4 = 4 ∧ n4 = 3 := by omega
      have hleap : isLeap (400 * q1 + 100 * n2 + 4 * q3 + n4 + 1) = true := by
        rw [isLeap_iff]
        rcases eq_or_lt_of_le (show q3 ≤ 24 by omega) with h24 | h23
        · have h36524 := hb3' ⟨h1460, h24⟩
          have := hb2' h36524
          omega
        · omega
      simp only [hleap, if_true]
      omega

theorem yearAcc_eval (n1 n2 n3 n4 : Int) (h2a : 0 ≤ n2) (h2b : n2 ≤ 3)
    (h3a : 0 ≤ n3) (h3b : n3 ≤ 24) (h4a : 0 ≤ n4) (h4b : n4 ≤ 3) :
    yearAcc (400 * n1 + 100 * n2 + 4 * n3 + n4)
      = 146097 * n1 + 36524 * n2 + 1461 * n3 + 365 * n4 := by
  simp only [yearAcc]
  set y0 := 400 * n1 + 100 * n2 + 4 * n3 + n4 with hy0
  set q1 := y0 / 400 with hq1
  set y1 := y0 - 400 * q1 with hy1
  set q2 := y1 / 100 with hq2
  set y2 := y1 - 100 * q2 with hy2
  set q3 := y2 / 4 with hq3
  have e1 : q1 = n1 := by omega
  have e2 : q2 = n2 := by omega
  have e3 : q3 = n3 := by omega
  omega

set_option maxHeartbeats 1000000 in
theorem yearAcc_succ (y0 : Int) :
    yearAcc (y0 + 1) = yearAcc y0 + 365 + (if isLeap (y0 + 1) then 1 else 0) := by
  obtain ⟨n1, n2, n3, n4, h2a, h2b, h3a, h3b, h4a, h4b, hy⟩ :
      ∃ n1 n2 n3 n4, 0 ≤ n2 ∧ n2 ≤ 3 ∧ 0 ≤ n3 ∧ n3 ≤ 24 ∧ 0 ≤ n4 ∧ n4 ≤ 3 ∧
        y0 = 400 * n1 + 100 * n2 + 4 * n3 + n4 :=
    ⟨y0 / 400, y0 % 400 / 100, y0 % 400 % 100 / 4, y0 % 400 % 100 % 4,
      by omega, by omega, by omega, by omega, by omega, by omega, by omega⟩
  obtain ⟨m1, m2, m3, m4, g2a, g2b, g3a, g3b, g4a, g4b, hy'⟩ :
      ∃ m1 m2 m3 m4, 0 ≤ m2 ∧ m2 ≤ 3 ∧ 0 ≤ m3 ∧ m3 ≤ 24 ∧ 0 ≤ m4 ∧ m4 ≤ 3 ∧
        y0 + 1 = 400 * m1 + 100 * m2 + 4 * m3 + m4 :=
    ⟨(y0 + 1) / 400, (y0 + 1) % 400 / 100, (y0 + 1) % 400 % 100 / 4, (y0 + 1) % 400 % 100 % 4,
      by omega, by omega, by omega, by omega, by omega, by omega, by omega⟩
  have ea : yearAcc y0 = 146097 * n1 + 36524 * n2 + 1461 * n3 + 365 * n4 := by
    rw [hy]; exact yearAcc_eval n1 n2 n3 n4 h2a h2b h3a h3b h4a h4b
  have eb : yearAcc (y0 + 1) = 146097 * m1 + 36524 * m2 + 1461 * m3 + 365 * m4 := by
    rw [hy']; exact yearAcc_eval m1 m2 m3 m4 g2a g2b g3a g3b g4a g4b
  have hLD : isLeap (y0 + 1) = true ↔ (m4 = 0 ∧ (m3 ≠ 0 ∨ m2 = 0)) := by
    rw [isLeap_iff]
    constructor
    · intro h; omega
    · intro h; omega
  rw [ea, eb]
  clear ea eb
  by_cases hL : (m4 = 0 ∧ (m3 ≠ 0 ∨ m2 = 0))
  · rw [if_pos (hLD.mpr hL)]
    omega
  · rw [if_neg (fun hc => hL (hLD.mp hc))]
    omega

theorem yearAcc_absYear (d0 : Int) :
    yearAcc (absYear d0).1 + (absYear d0).2 = d0 := by
  obtain ⟨n1, n2, n3, n4, yd, h1, h2, hb⟩ := absYear_spec d0
  rw [h1, h2, yearAcc_eval n1 n2 n3 n4 hb.1 hb.2.1 hb.2.2.1 hb.2.2.2.1
    hb.2.2.2.2.1 hb.2.2.2.2.2.1]
  omega

set_option maxRecDepth 10000 in
theorem monthDay_spec_fin : ∀ (leap : Bool) (n : Fin 366),
    ((n : ℕ) : Int) ≤ 364 + (if leap = true then 1 else 0) →
    1 ≤ (monthDayFromYday leap ((n : ℕ) : Int)).1 ∧
    (monthDayFromYday leap ((n : ℕ) : Int)).1 ≤ 12 ∧
    1 ≤ (monthDayFromYday leap ((n : ℕ) : Int)).2 ∧
    (monthDayFromYday leap ((n : ℕ) : Int)).2 ≤ 31 ∧
    doyFromMonthDay leap (monthDayFromYday leap ((n : ℕ) : Int)).1
      (monthDayFromYday leap ((n : ℕ) : Int)).2 = ((n : ℕ) : Int) := by
  decide

set_option maxRecDepth 10000 in
theorem monthDay_step_fin : ∀ (leap : Bool) (n : Fin 365),
    (((n : ℕ) : Int) + 1) ≤ 364 + (if leap = true then 1 else 0) →
    100 * (monthDayFromYday leap ((n : ℕ) : Int)).1 + (monthDayFromYday leap ((n : ℕ) : Int)).2
      < 100 * (monthDayFromYday leap (((n : ℕ) : Int) + 1)).1
          + (monthDayFromYday leap (((n : ℕ) : Int) + 1)).2 := by
  decide

theorem absYear_yday (d0 : Int) :
    0 ≤ (absYear d0).2 ∧
    (absYear d0).2 ≤ 364 + (if isLeap ((absYear d0).1 + 1) then 1 else 0) := by
  obtain ⟨n1, n2, n3, n4, yd, h1, h2, hb⟩ := absYear_spec d0
  rw [h1, h2]
  exact ⟨hb.2.2.2.2.2.2.1, hb.2.2.2.2.2.2.2.2⟩

theorem monthDay_spec (leap : Bool) (yd : Int) (h0 : 0 ≤ yd)
    (h1 : yd ≤ 364 + (if leap = true then 1 else 0)) :
    1 ≤ (monthDayFromYday leap yd).1 ∧ (monthDayFromYday leap yd).1 ≤ 12 ∧
    1 ≤ (monthDayFromYday leap yd).2 ∧ (monthDayFromYday leap yd).2 ≤ 31 ∧
    doyFromMonthDay leap (monthDayFromYday leap yd).1 (monthDayFromYday leap yd).2 = yd := by
  have hlt : yd.toNat < 366 := by
    rcases leap with _ | _ <;> simp at h1 <;> omega
  have hcast : ((yd.toNat : ℕ) : Int) = yd := Int.toNat_of_nonneg h0
  have hfin := monthDay_spec_fin leap ⟨yd.toNat, hlt⟩
  simp only [Fin.val_mk] at hfin
  rw [hcast] at hfin
  exact hfin h1

theorem monthDay_step (leap : Bool) (yd : Int) (h0 : 0 ≤ yd)
    (h1 : yd + 1 ≤ 364 + (if leap = true then 1 else 0)) :
    100 * (monthDayFromYday leap yd).1 + (monthDayFromYday leap yd).2
      < 100 * (monthDayFromYday leap (yd + 1)).1 + (monthDayFromYday leap (yd + 1)).2 := by
  have hlt : yd.toNat < 365 := by
    rcases leap with _ | _ <;> simp at h1 <;> omega
  have hcast : ((yd.toNat : ℕ) : Int) = yd := Int.toNat_of_nonneg h0
  have hfin := monthDay_step_fin leap ⟨yd.toNat, hlt⟩
  simp only [Fin.val_mk] at hfin
  rw [hcast] at hfin
  exact hfin h1

theorem civil_roundTrip (z : Int) :
    daysFromCivil (civilFromDays z).1 (civilFromDays z).2.1 (civilFromDays z).2.2 = z := by
  have hyd := absYear_yday (z + 719162)
  have hmd := monthDay_spec (isLeap ((absYear (z + 719162)).1 + 1)) ((absYear (z + 719162)).2)
    hyd.1 hyd.2
  simp only [civilFromDays, daysFromCivil, Int.add_sub_cancel]
  rw [hmd.2.2.2.2]
  have := yearAcc_absYear (z + 719162)
  omega

theorem chainMono (f : Int → Int) (lo hi : Int)
    (hstep : ∀ z, lo ≤ z → z + 1 ≤ hi → f z < f (z + 1)) :
    ∀ a b, lo ≤ a → b ≤ hi → a < b → f a < f b := by
  have key : ∀ k : ℕ, ∀ a b, lo ≤ a → b ≤ hi → b = a + k + 1 → f a < f b := by
    intro k
    induction k with
    | zero =>
      intro a b ha hb hb'
      have : b = a + 1 := by omega
      subst this
      exact hstep a ha hb
    | succ k ih =>
      intro a b ha hb hb'
      have h1 : f a < f (b - 1) := ih a (b - 1) ha (by omega) (by omega)
      have h2 : f (b - 1) < f (b - 1 + 1) := hstep (b - 1) (by omega) (by omega)
      have : b - 1 + 1 = b := by omega
      rw [this] at h2
      exact h1.trans h2
  intro a b ha hb hab
  exact key (b - a - 1).toNat a b ha hb (by omega)

theorem yearAcc_succ_ge (y0 : Int) : yearAcc y0 + 365 ≤ yearAcc (y0 + 1) := by
  have h := yearAcc_succ y0
  split at h <;> omega

theorem yearAcc_le {y y' : Int} (h : y ≤ y') : yearAcc y ≤ yearAcc y' := by
  rcases eq_or_lt_of_le h with rfl | hlt
  · exact le_refl _
  · exact le_of_lt (chainMono yearAcc y y'
      (fun z hz hz' => by have := yearAcc_succ_ge z; omega) y y' (le_refl y) (le_refl y') hlt)

theorem civil_month_day_bounds (z : Int) :
    1 ≤ (civilFromDays z).2.1 ∧ (civilFromDays z).2.1 ≤ 12 ∧
    1 ≤ (civilFromDays z).2.2 ∧ (civilFromDays z).2.2 ≤ 31 := by
  have hyd := absYear_yday (z + 719162)
  have hmd := monthDay_spec (isLeap ((absYear (z + 719162)).1 + 1)) ((absYear (z + 719162)).2)
    hyd.1 hyd.2
  simp only [civilFromDays]
  exact ⟨hmd.1, hmd.2.1, hmd.2.2.1, hmd.2.2.2.1⟩

theorem civil_year_bounds (z : Int) (hz : InRangeDay z) :
    1 ≤ (civilFromDays z).1 ∧ (civilFromDays z).1 ≤ 9999 := by
  obtain ⟨n1, n2, n3, n4, yd, h1, h2, hb⟩ := absYear_spec (z + 719162)
  simp only [civilFromDays]
  rw [h1]
  rcases hz with ⟨hlo, hhi⟩
  constructor
  · -- n1 ≥ 0 since d0 ≥ 0
    have : 0 ≤ n1 := by
      by_contra hneg
      push_neg at hneg
      omega
    omega
  · -- if the year were ≥ 10000 the day count would exceed the range
    by_contra hbig
    push_neg at hbig
    have : 146097 * n1 + 36524 * n2 + 1461 * n3 + 365 * n4 ≥ 3652059 := by
      have hn1 : n1 ≥ 24 := by omega
      rcases eq_or_lt_of_le hn1 with h24 | h25
      · have : 100 * n2 + 4 * n3 + n4 ≥ 400 := by omega
        have hn2 : n2 = 3 ∧ n3 = 24 ∧ n4 = 3 := by omega
        omega
      · omega
    omega

theorem civil_key_strictMono (z1 z2 : Int) (h : z1 < z2) :
    (civilFromDays z1).1 * 10000 + (civilFromDays z1).2.1 * 100 + (civilFromDays z1).2.2
      < (civilFromDays z2).1 * 10000 + (civilFromDays z2).2.1 * 100 + (civilFromDays z2).2.2 := by
  have hrec1 := yearAcc_absYear (z1 + 719162)
  have hrec2 := yearAcc_absYear (z2 + 719162)
  have hyd1 := absYear_yday (z1 + 719162)
  have hyd2 := absYear_yday (z2 + 719162)
  have hmd1 := civil_month_day_bounds z1
  have hmd2 := civil_month_day_bounds z2
  rcases lt_trichotomy (absYear (z1 + 719162)).1 (absYear (z2 + 719162)).1 with hy | hy | hy
  · -- strictly earlier year: the year digits dominate the key
    simp only [civilFromDays] at hmd1 hmd2 ⊢
    omega
  · -- same year: same day-of-year ordering, month/day step chain
    have hacc : yearAcc (absYear (z1 + 719162)).1 = yearAcc (absYear (z2 + 719162)).1 := by
      rw [hy]
    have hydlt : (absYear (z1 + 719162)).2 < (absYear (z2 + 719162)).2 := by omega
    have hbit2 := hyd2.2
    rw [← hy] at hbit2
    have hmono := chainMono
      (fun yd => 100 * (monthDayFromYday (isLeap ((absYear (z1 + 719162)).1 + 1)) yd).1
        + (monthDayFromYday (isLeap ((absYear (z1 + 719162)).1 + 1)) yd).2)
      0 (364 + (if isLeap ((absYear (z1 + 719162)).1 + 1) then 1 else 0))
      (fun yd h0 h1 => monthDay_step _ yd h0 (by
        rcases hc : isLeap ((absYear (z1 + 719162)).1 + 1) with _ | _ <;>
          rw [hc] at h1 <;> simpa using h1))
      ((absYear (z1 + 719162)).2) ((absYear (z2 + 719162)).2) hyd1.1 hbit2 hydlt
    have hm2 : 100 * (monthDayFromYday (isLeap ((absYear (z1 + 719162)).1 + 1))
          ((absYear (z1 + 719162)).2)).1
        + (monthDayFromYday (isLeap ((absYear (z1 + 719162)).1 + 1))
          ((absYear (z1 + 719162)).2)).2
        < 100 * (monthDayFromYday (isLeap ((absYear (z1 + 719162)).1 + 1))
          ((absYear (z2 + 719162)).2)).1
        + (monthDayFromYday (isLeap ((absYear (z1 + 719162)).1 + 1))
          ((absYear (z2 + 719162)).2)).2 := hmono
    clear hmono
    simp only [civilFromDays, hy]
    rw [← hy]
    omega
  · -- later year for the earlier instant is impossible
    exfalso
    have hsucc := yearAcc_succ (absYear (z2 + 719162)).1
    have hle : yearAcc ((absYear (z2 + 719162)).1 + 1) ≤ yearAcc (absYear (z1 + 719162)).1 :=
      yearAcc_le (by omega)
    have hbit : (if isLeap ((absYear (z2 + 719162)).1 + 1) then (1 : Int) else 0) = 0 ∨
        (if isLeap ((absYear (z2 + 719162)).1 + 1) then (1 : Int) else 0) = 1 := by
      split
      · right; rfl
      · left; rfl
    omega

theorem digitVal_digitChar (k : Nat) (hk : k ≤ 9) : digitVal (digitChar k) = some k := by
  interval_cases k <;> decide

theorem digitChar_lt_iff (j k : Nat) (hj : j ≤ 9) (hk : k ≤ 9) :
    (digitChar j < digitChar k) ↔ j < k := by
  interval_cases j <;> interval_cases k <;> decide

theorem digitChar_inj (j k : Nat) (hj : j ≤ 9) (hk : k ≤ 9)
    (h : digitChar j = digitChar k) : j = k := by
  by_contra hne
  rcases Nat.lt_or_ge j k with hlt | hge
  · have := (digitChar_lt_iff j k hj hk).mpr hlt
    rw [h] at this
    exact lt_irrefl _ this
  · have hlt : k < j := by omega
    have := (digitChar_lt_iff k j hk hj).mpr hlt
    rw [h] at this
    exact lt_irrefl _ this

theorem padDigits_length (w n : Nat) : (padDigits w n).length = w := by
  induction w generalizing n with
  | zero => rfl
  | succ w ih => simp [padDigits, ih]

theorem digit_head_le (w a : Nat) (ha : a < 10 ^ (w + 1)) : a / 10 ^ w ≤ 9 := by
  have hpos : 0 < 10 ^ w := Nat.pos_pow_of_pos w (by omega)
  have hlt : a / 10 ^ w < 10 := (Nat.div_lt_iff_lt_mul hpos).mpr
    (by rw [pow_succ] at ha; omega)
  omega

theorem padDigits_lt_iff (w : Nat) : ∀ a b : Nat, a < 10 ^ w → b < 10 ^ w →
    (charListLt (padDigits w a) (padDigits w b) = true ↔ a < b) := by
  induction w with
  | zero =>
    intro a b ha hb
    simp only [pow_zero, Nat.lt_one_iff] at ha hb
    subst ha; subst hb
    simp [padDigits, charListLt]
  | succ w ih =>
    intro a b ha hb
    have hpos : 0 < 10 ^ w := Nat.pos_pow_of_pos w (by omega)
    have hda := digit_head_le w a ha
    have hdb := digit_head_le w b hb
    have hma : a % 10 ^ w < 10 ^ w := Nat.mod_lt _ hpos
    have hmb : b % 10 ^ w < 10 ^ w := Nat.mod_lt _ hpos
    have hdm_a := Nat.div_add_mod a (10 ^ w)
    have hdm_b := Nat.div_add_mod b (10 ^ w)
    simp only [padDigits, charListLt]
    rcases Nat.lt_trichotomy (a / 10 ^ w) (b / 10 ^ w) with hd | hd | hd
    · rw [if_pos ((digitChar_lt_iff _ _ hda hdb).mpr hd)]
      simp only [true_iff]
      exact Nat.lt_of_div_lt_div hd
    · have hne : ¬ (digitChar (a / 10 ^ w) < digitChar (b / 10 ^ w)) := by
        rw [digitChar_lt_iff _ _ hda hdb]; omega
      have hne' : ¬ (digitChar (b / 10 ^ w) < digitChar (a / 10 ^ w)) := by
        rw [digitChar_lt_iff _ _ hdb hda]; omega
      rw [if_neg hne, if_neg hne', ih (a % 10 ^ w) (b % 10 ^ w) hma hmb]
      rw [hd] at hdm_a
      omega
    · have hne : ¬ (digitChar (a / 10 ^ w) < digitChar (b / 10 ^ w)) := by
        rw [digitChar_lt_iff _ _ hda hdb]; omega
      rw [if_neg hne, if_pos ((digitChar_lt_iff _ _ hdb hda).mpr hd)]
      constructor
      · intro hcontra
        exact absurd hcontra (by simp)
      · intro hlt
        have hdd : a / 10 ^ w ≤ b / 10 ^ w := Nat.div_le_div_right (le_of_lt hlt)
        omega

theorem charListLt_irrefl : ∀ l : List Char, charListLt l l = false := by
  intro l
  induction l with
  | nil => rfl
  | cons c cs ih => simp [charListLt, ih]

theorem padDigits_inj (w a b : Nat) (ha : a < 10 ^ w) (hb : b < 10 ^ w)
    (h : padDigits w a = padDigits w b) : a = b := by
  by_contra hne
  rcases Nat.lt_or_ge a b with hlt | hge
  · have := (padDigits_lt_iff w a b ha hb).mpr hlt
    rw [h] at this
    rw [charListLt_irrefl] at this
    exact Bool.false_ne_true this
  · have hlt : b < a := by omega
    have := (padDigits_lt_iff w b a hb ha).mpr hlt
    rw [h] at this
    rw [charListLt_irrefl] at this
    exact Bool.false_ne_true this

theorem parseDigits_padDigits (w : Nat) : ∀ n : Nat, n < 10 ^ w →
    parseDigits (padDigits w n) = some n := by
  induction w with
  | zero =>
    intro n hn
    simp only [pow_zero, Nat.lt_one_iff] at hn
    subst hn
    rfl
  | succ w ih =>
    intro n hn
    have hpos : 0 < 10 ^ w := Nat.pos_pow_of_pos w (by omega)
    have hd := digit_head_le w n hn
    have hm : n % 10 ^ w < 10 ^ w := Nat.mod_lt _ hpos
    have hdm := Nat.div_add_mod n (10 ^ w)
    rw [Nat.mul_comm] at hdm
    simp only [padDigits, parseDigits, digitVal_digitChar _ hd, ih (n % 10 ^ w) hm,
      padDigits_length, Option.some.injEq]
    omega

theorem padDigits_append (w1 w2 : Nat) : ∀ a b : Nat, a < 10 ^ w1 → b < 10 ^ w2 →
    padDigits (w1 + w2) (a * 10 ^ w2 + b) = padDigits w1 a ++ padDigits w2 b := by
  induction w1 with
  | zero =>
    intro a b ha hb
    simp only [pow_zero, Nat.lt_one_iff] at ha
    subst ha
    simp [padDigits]
  | succ w1 ih =>
    intro a b ha hb
    have hpos2 : 0 < 10 ^ w2 := Nat.pos_pow_of_pos w2 (by omega)
    have hpos1 : 0 < 10 ^ w1 := Nat.pos_pow_of_pos w1 (by omega)
    have hsucc : w1 + 1 + w2 = (w1 + w2) + 1 := by omega
    rw [hsucc]
    simp only [padDigits]
    have hsplit : 10 ^ (w1 + w2) = 10 ^ w1 * 10 ^ w2 := by
      rw [← pow_add]
    have hsplit2 : 10 ^ (w1 + w2) = 10 ^ w2 * 10 ^ w1 :=
      hsplit.trans (Nat.mul_comm _ _)
    have hdiv : (a * 10 ^ w2 + b) / 10 ^ (w1 + w2) = a / 10 ^ w1 := by
      rw [hsplit2, ← Nat.div_div_eq_div_mul]
      congr 1
      rw [Nat.add_comm, Nat.add_mul_div_right _ _ hpos2, Nat.div_eq_of_lt hb]
      omega
    have hmod : (a * 10 ^ w2 + b) % 10 ^ (w1 + w2) = (a % 10 ^ w1) * 10 ^ w2 + b := by
      rw [hsplit, Nat.mul_comm (10 ^ w1) (10 ^ w2), Nat.mod_mul]
      have h1 : (a * 10 ^ w2 + b) % 10 ^ w2 = b := by
        rw [Nat.add_comm, Nat.add_mul_mod_self_right, Nat.mod_eq_of_lt hb]
      have h2 : (a * 10 ^ w2 + b) / 10 ^ w2 = a := by
        rw [Nat.add_comm, Nat.add_mul_div_right _ _ hpos2, Nat.div_eq_of_lt hb]
        omega
      rw [h1, h2]
      ring
    rw [hdiv, hmod, ih (a % 10 ^ w1) b (Nat.mod_lt _ hpos1) hb]
    rfl

theorem formatYYYYMMDD_data (t : Timestamp) :
    (formatYYYYMMDD t).data = padDigits 4 (civilFromDays (wallDay t)).1.toNat
      ++ padDigits 2 (civilFromDays (wallDay t)).2.1.toNat
      ++ padDigits 2 (civilFromDays (wallDay t)).2.2.toNat := rfl

theorem civil_toNat_bounds (z : Int) (h : InRangeDay z) :
    (civilFromDays z).1.toNat < 10 ^ 4 ∧ (civilFromDays z).2.1.toNat < 10 ^ 2 ∧
    (civilFromDays z).2.2.toNat < 10 ^ 2 := by
  have hy := civil_year_bounds z h
  have hmd := civil_month_day_bounds z
  refine ⟨?_, ?_, ?_⟩ <;> simp only [pow_succ, pow_zero] <;> omega

theorem format_data_eq_pad8 (t : Timestamp) (h : InRangeDay (wallDay t)) :
    (formatYYYYMMDD t).data = padDigits 8
      ((civilFromDays (wallDay t)).1.toNat * 10 ^ 4
        + ((civilFromDays (wallDay t)).2.1.toNat * 10 ^ 2
          + (civilFromDays (wallDay t)).2.2.toNat)) := by
  obtain ⟨hy, hm, hd⟩ := civil_toNat_bounds (wallDay t) h
  rw [formatYYYYMMDD_data, List.append_assoc,
    ← padDigits_append 2 2 _ _ hm hd,
    ← padDigits_append 4 4 _ _ hy (by simp only [pow_succ, pow_zero] at hm hd ⊢; omega)]

theorem take_append_len {A : Type} (l1 l2 : List A) (n : ℕ) (h : l1.length = n) :
    (l1 ++ l2).take n = l1 := by
  subst h
  exact List.take_left _ _

theorem drop_append_len {A : Type} (l1 l2 : List A) (n : ℕ) (h : l1.length = n) :
    (l1 ++ l2).drop n = l2 := by
  subst h
  exact List.drop_left _ _

theorem parseDay_format (t : Timestamp) (h : InRangeDay (wallDay t)) :
    parseDay (formatYYYYMMDD t) = some (wallDay t) := by
  obtain ⟨hy, hm, hd⟩ := civil_toNat_bounds (wallDay t) h
  have hyb := civil_year_bounds (wallDay t) h
  have hmdb := civil_month_day_bounds (wallDay t)
  have hdata := formatYYYYMMDD_data t
  rw [List.append_assoc] at hdata
  have hlen : (formatYYYYMMDD t).data.length = 8 := by
    rw [hdata]
    simp [padDigits_length]
  have htake4 : (formatYYYYMMDD t).data.take 4
      = padDigits 4 (civilFromDays (wallDay t)).1.toNat := by
    rw [hdata, take_append_len _ _ 4 (padDigits_length _ _)]
  have hdrop4 : (formatYYYYMMDD t).data.drop 4
      = padDigits 2 (civilFromDays (wallDay t)).2.1.toNat
        ++ padDigits 2 (civilFromDays (wallDay t)).2.2.toNat := by
    rw [hdata, drop_append_len _ _ 4 (padDigits_length _ _)]
  have htake2 : ((formatYYYYMMDD t).data.drop 4).take 2
      = padDigits 2 (civilFromDays (wallDay t)).2.1.toNat := by
    rw [hdrop4, take_append_len _ _ 2 (padDigits_length _ _)]
  have hdrop6 : (formatYYYYMMDD t).data.drop 6
      = padDigits 2 (civilFromDays (wallDay t)).2.2.toNat := by
    rw [show (6 : ℕ) = 4 + 2 by rfl, ← List.drop_drop, hdrop4,
      drop_append_len _ _ 2 (padDigits_length _ _)]
  rw [parseDay, if_pos hlen, htake4, htake2, hdrop6,
    parseDigits_padDigits 4 _ hy, parseDigits_padDigits 2 _ hm, parseDigits_padDigits 2 _ hd]
  have hcy : (((civilFromDays (wallDay t)).1.toNat : ℕ) : Int) = (civilFromDays (wallDay t)).1 :=
    Int.toNat_of_nonneg (by omega)
  have hcm : (((civilFromDays (wallDay t)).2.1.toNat : ℕ) : Int) = (civilFromDays (wallDay t)).2.1 :=
    Int.toNat_of_nonneg (by omega)
  have hcd : (((civilFromDays (wallDay t)).2.2.toNat : ℕ) : Int) = (civilFromDays (wallDay t)).2.2 :=
    Int.toNat_of_nonneg (by omega)
  simp only [hcy, hcm, hcd, civil_roundTrip]

theorem strLt_format_of_lt (t1 t2 : Timestamp) (h1 : InRangeDay (wallDay t1))
    (h2 : InRangeDay (wallDay t2)) (hlt : wallDay t1 < wallDay t2) :
    strLt (formatYYYYMMDD t1) (formatYYYYMMDD t2) = true := by
  obtain ⟨hy1, hm1, hd1⟩ := civil_toNat_bounds (wallDay t1) h1
  obtain ⟨hy2, hm2, hd2⟩ := civil_toNat_bounds (wallDay t2) h2
  have hyb1 := civil_year_bounds (wallDay t1) h1
  have hyb2 := civil_year_bounds (wallDay t2) h2
  have hmdb1 := civil_month_day_bounds (wallDay t1)
  have hmdb2 := civil_month_day_bounds (wallDay t2)
  have hkey := civil_key_strictMono (wallDay t1) (wallDay t2) hlt
  rw [strLt, format_data_eq_pad8 t1 h1, format_data_eq_pad8 t2 h2,
    padDigits_lt_iff 8 _ _
      (by simp only [pow_succ, pow_zero] at hy1 hm1 hd1 ⊢; omega)
      (by simp only [pow_succ, pow_zero] at hy2 hm2 hd2 ⊢; omega)]
  simp only [pow_succ, pow_zero]
  omega

theorem format_eq_iff (t1 t2 : Timestamp) (h1 : InRangeDay (wallDay t1))
    (h2 : InRangeDay (wallDay t2)) :
    formatYYYYMMDD t1 = formatYYYYMMDD t2 ↔ wallDay t1 = wallDay t2 := by
  constructor
  · intro h
    have := parseDay_format t1 h1
    rw [h, parseDay_format t2 h2] at this
    exact (Option.some.injEq _ _ ▸ this).symm
  · intro h
    unfold formatYYYYMMDD
    rw [h]

theorem charListLt_asymm : ∀ l1 l2 : List Char,
    charListLt l1 l2 = true → charListLt l2 l1 = true → False := by
  intro l1
  induction l1 with
  | nil =>
    intro l2 h1 h2
    cases l2 with
    | nil => simp [charListLt] at h1
    | cons c cs => simp [charListLt] at h2
  | cons a as ih =>
    intro l2 h1 h2
    cases l2 with
    | nil => simp [charListLt] at h1
    | cons b bs =>
      simp only [charListLt] at h1 h2
      rcases lt_trichotomy a b with hab | hab | hab
      · rw [if_neg (lt_asymm hab), if_pos hab] at h2
        simp at h2
      · subst hab
        rw [if_neg (lt_irrefl a), if_neg (lt_irrefl a)] at h1 h2
        exact ih bs h1 h2
      · rw [if_neg (lt_asymm hab), if_pos hab] at h1
        simp at h1

theorem charListLt_trans : ∀ l1 l2 l3 : List Char,
    charListLt l1 l2 = true → charListLt l2 l3 = true → charListLt l1 l3 = true := by
  intro l1
  induction l1 with
  | nil =>
    intro l2 l3 h1 h2
    cases l2 with
    | nil => simp [charListLt] at h1
    | cons b bs =>
      cases l3 with
      | nil => simp [charListLt] at h2
      | cons c cs => simp [charListLt]
  | cons a as ih =>
    intro l2 l3 h1 h2
    cases l2 with
    | nil => simp [charListLt] at h1
    | cons b bs =>
      cases l3 with
      | nil => simp [charListLt] at h2
      | cons c cs =>
        simp only [charListLt] at h1 h2 ⊢
        rcases lt_trichotomy a b with hab | hab | hab
        · rcases lt_trichotomy b c with hbc | hbc | hbc
          · rw [if_pos (lt_trans hab hbc)]
          · subst hbc; rw [if_pos hab]
          · rw [if_neg (lt_asymm hbc), if_pos hbc] at h2
            simp at h2
        · subst hab
          rw [if_neg (lt_irrefl a), if_neg (lt_irrefl a)] at h1
          rcases lt_trichotomy a c with hac | hac | hac
          · rw [if_pos hac]
          · subst hac
            rw [if_neg (lt_irrefl a), if_neg (lt_irrefl a)] at h2 ⊢
            exact ih bs cs h1 h2
          · rw [if_neg (lt_asymm hac), if_pos hac] at h2
            simp at h2
        · rw [if_neg (lt_asymm hab), if_pos hab] at h1
          simp at h1

theorem charListLt_connex : ∀ l1 l2 : List Char, l1 ≠ l2 →
    charListLt l1 l2 = true ∨ charListLt l2 l1 = true := by
  intro l1
  induction l1 with
  | nil =>
    intro l2 hne
    cases l2 with
    | nil => exact absurd rfl hne
    | cons b bs => left; simp [charListLt]
  | cons a as ih =>
    intro l2 hne
    cases l2 with
    | nil => right; simp [charListLt]
    | cons b bs =>
      simp only [charListLt]
      rcases lt_trichotomy a b with hab | hab | hab
      · left; rw [if_pos hab]
      · subst hab
        have hne' : as ≠ bs := fun h => hne (by rw [h])
        simp only [if_neg (lt_irrefl a)]
        exact ih bs hne'
      · right; rw [if_pos hab]

theorem strLe_total (a b : String) : strLe a b = true ∨ strLe b a = true := by
  by_cases h : strLt b a = true
  · right
    rw [strLe, Bool.not_eq_true']
    by_contra hc
    rw [Bool.not_eq_false] at hc
    exact charListLt_asymm _ _ h hc
  · left
    rw [strLe, Bool.not_eq_true' ]
    rw [Bool.not_eq_true] at h
    exact h

theorem strLe_trans_thm (a b c : String) (h1 : strLe a b = true) (h2 : strLe b c = true) :
    strLe a c = true := by
  rw [strLe, Bool.not_eq_true'] at h1 h2 ⊢
  by_contra hc
  rw [Bool.not_eq_false] at hc
  rcases eq_or_ne a.data b.data with hab | hab
  · rw [strLt, hab] at hc
    rw [strLt] at h2
    rw [hc] at h2
    simp at h2
  · rcases charListLt_connex a.data b.data hab with hlt | hlt
    · have : charListLt c.data b.data = true := charListLt_trans _ _ _ hc hlt
      rw [strLt] at h2
      rw [this] at h2
      simp at h2
    · rw [strLt] at h1
      rw [hlt] at h1
      simp at h1

theorem strLe_antisymm_thm (a b : String) (h1 : strLe a b = true) (h2 : strLe b a = true) :
    a = b := by
  rw [strLe, Bool.not_eq_true'] at h1 h2
  rcases eq_or_ne a b with h | h
  · exact h
  · have hne : a.data ≠ b.data := fun hd => h (String.ext hd)
    rcases charListLt_connex a.data b.data hne with hlt | hlt
    · rw [strLt] at h2
      rw [hlt] at h2
      simp at h2
    · rw [strLt] at h1
      rw [hlt] at h1
      simp at h1

theorem strLt_irrefl (a : String) : strLt a a = false := by
  rw [strLt, charListLt_irrefl]

theorem strLt_of_le_of_ne (a b : String) (hle : strLe a b = true) (hne : a ≠ b) :
    strLt a b = true := by
  rw [strLe, Bool.not_eq_true'] at hle
  rcases charListLt_connex a.data b.data (fun hd => hne (String.ext hd)) with hlt | hlt
  · exact hlt
  · rw [strLt] at hle
    rw [hlt] at hle
    simp at hle

theorem lookup_insertDays : ∀ (days : List (String × List Weather)) (k k' : String) (w : Weather),
    lookupDays (insertDays days k w) k'
      = if k' = k then some ((lookupDays days k).getD [] ++ [w]) else lookupDays days k' := by
  intro days
  induction days with
  | nil =>
    intro k k' w
    by_cases h : k' = k
    · subst h
      simp [insertDays, lookupDays]
    · have h' : ¬ k = k' := fun hh => h hh.symm
      simp [insertDays, lookupDays, h, h']
  | cons p rest ih =>
    intro k k' w
    obtain ⟨k0, b⟩ := p
    by_cases h0 : k0 = k
    · subst h0
      by_cases h : k0 = k'
      · subst h
        simp [insertDays, lookupDays]
      · have h' : ¬ k' = k0 := fun hh => h hh.symm
        simp [insertDays, lookupDays, h, h']
    · by_cases h : k' = k
      · subst h
        have h0' : ¬ k0 = k' := h0
        simp [insertDays, lookupDays, h0, h0', ih]
      · simp [insertDays, lookupDays, h0, h, ih]

theorem lookup_groupFold : ∀ (f : List Weather) (st : GroupState) (k : String),
    lookupDays ((f.foldl groupStep st).days) k
      = match lookupDays st.days k with
        | some b => some (b ++ f.filter (fun w => dayKey w = k))
        | none =>
          if f.filter (fun w => dayKey w = k) = [] then none
          else some (f.filter (fun w => dayKey w = k)) := by
  intro f
  induction f with
  | nil =>
    intro st k
    cases h : lookupDays st.days k <;> simp [List.foldl, h]
  | cons w f ih =>
    intro st k
    rw [List.foldl_cons, ih (groupStep st w) k]
    have hdays : (groupStep st w).days = insertDays st.days (dayKey w) w := rfl
    rw [hdays, lookup_insertDays]
    by_cases hk : k = dayKey w
    · subst hk
      rw [if_pos rfl]
      have hfil : (w :: f).filter (fun x => dayKey x = dayKey w) =
          w :: f.filter (fun x => dayKey x = dayKey w) := by
        simp [List.filter_cons]
      rw [hfil]
      cases h : lookupDays st.days (dayKey w) with
      | none => simp
      | some b => simp
    · rw [if_neg hk]
      have hfil : (w :: f).filter (fun x => dayKey x = k) = f.filter (fun x => dayKey x = k) := by
        simp only [List.filter_cons]
        rw [if_neg (by simpa using fun hh => hk hh.symm)]
      rw [hfil]

theorem groupFold_keys_inv : ∀ (f : List Weather) (st : GroupState),
    (∀ k, (lookupDays st.days k).isSome = true ↔ k ∈ st.keys) → st.keys.Nodup →
    (∀ k, (lookupDays ((f.foldl groupStep st).days) k).isSome = true
        ↔ k ∈ (f.foldl groupStep st).keys)
      ∧ (f.foldl groupStep st).keys.Nodup := by
  intro f
  induction f with
  | nil =>
    intro st hinv hnd
    exact ⟨hinv, hnd⟩
  | cons w f ih =>
    intro st hinv hnd
    rw [List.foldl_cons]
    apply ih (groupStep st w)
    · intro k
      have hdays : (groupStep st w).days = insertDays st.days (dayKey w) w := rfl
      have hkeys : (groupStep st w).keys
          = if (lookupDays st.days (dayKey w)).isSome then st.keys
            else st.keys ++ [dayKey w] := rfl
      rw [hdays, lookup_insertDays, hkeys]
      by_cases hk : k = dayKey w
      · subst hk
        rw [if_pos rfl]
        simp only [Option.isSome_some, true_iff]
        by_cases hs : (lookupDays st.days (dayKey w)).isSome = true
        · rw [if_pos hs]
          exact (hinv (dayKey w)).mp hs
        · rw [if_neg hs]
          simp
      · rw [if_neg hk]
        rw [hinv k]
        by_cases hs : (lookupDays st.days (dayKey w)).isSome = true
        · rw [if_pos hs]
        · rw [if_neg hs]
          simp only [List.mem_append, List.mem_singleton]
          constructor
          · intro h; left; exact h
          · intro h
            rcases h with h | h
            · exact h
            · exact absurd h hk
    · have hkeys : (groupStep st w).keys
          = if (lookupDays st.days (dayKey w)).isSome then st.keys
            else st.keys ++ [dayKey w] := rfl
      rw [hkeys]
      by_cases hs : (lookupDays st.days (dayKey w)).isSome = true
      · rw [if_pos hs]; exact hnd
      · rw [if_neg hs]
        have hnm : dayKey w ∉ st.keys := fun hmem => hs ((hinv (dayKey w)).mpr hmem)
        simp [List.nodup_append, hnd, hnm]

theorem groupByDay_inv (f : Forecast) :
    (∀ k, (lookupDays (groupByDay f).days k).isSome = true ↔ k ∈ (groupByDay f).keys)
      ∧ (groupByDay f).keys.Nodup := by
  apply groupFold_keys_inv
  · intro k
    simp [lookupDays]
  · exact List.nodup_nil

theorem lookup_groupByDay (f : Forecast) (k : String) :
    lookupDays (groupByDay f).days k
      = if f.filter (fun w => dayKey w = k) = [] then none
        else some (f.filter (fun w => dayKey w = k)) := by
  rw [groupByDay, lookup_groupFold]
  rfl

theorem groupByDay_keys_mem (f : Forecast) (k : String) :
    k ∈ (groupByDay f).keys ↔ ∃ w ∈ f, dayKey w = k := by
  rw [← (groupByDay_inv f).1 k, lookup_groupByDay]
  by_cases h : f.filter (fun w => dayKey w = k) = []
  · rw [if_pos h]
    simp only [Option.isSome_none, Bool.false_eq_true, false_iff]
    rw [List.filter_eq_nil_iff] at h
    rintro ⟨w, hw, hkey⟩
    exact (h w hw) (by simpa using hkey)
  · rw [if_neg h]
    simp only [Option.isSome_some, true_iff]
    rcases List.exists_mem_of_ne_nil _ h with ⟨w, hw⟩
    rw [List.mem_filter] at hw
    exact ⟨w, hw.1, by simpa using hw.2⟩

theorem groupByDay_loc_aux : ∀ (f : List Weather) (st : GroupState),
    (f.foldl groupStep st).loc
      = match st.loc with
        | some l => some l
        | none => f.head?.map (fun w => w.date.offset) := by
  intro f
  induction f with
  | nil =>
    intro st
    obtain ⟨l0, ks, ds⟩ := st
    cases l0 <;> rfl
  | cons w f ih =>
    intro st
    obtain ⟨l0, ks, ds⟩ := st
    rw [List.foldl_cons, ih]
    cases l0 <;> rfl

theorem groupByDay_loc (f : Forecast) :
    (groupByDay f).loc = f.head?.map (fun w => w.date.offset) := by
  rw [groupByDay, groupByDay_loc_aux]

theorem sortStrings_perm (l : List String) : (sortStrings l).Perm l :=
  List.perm_insertionSort _ l

theorem sortStrings_sorted (l : List String) :
    List.Sorted (fun a b => strLe a b = true) (sortStrings l) := by
  haveI h1 : IsTotal String (fun a b => strLe a b = true) := ⟨strLe_total⟩
  haveI h2 : IsTrans String (fun a b => strLe a b = true) := ⟨fun a b c => strLe_trans_thm a b c⟩
  exact List.sorted_insertionSort _ l

theorem sortStrings_nodup (l : List String) (h : l.Nodup) : (sortStrings l).Nodup :=
  ((sortStrings_perm l).nodup_iff).mpr h

theorem sortStrings_mem (l : List String) (k : String) : k ∈ sortStrings l ↔ k ∈ l :=
  List.mem_insertionSort _

theorem sortStrings_pairwise_lt (l : List String) (h : l.Nodup) :
    List.Pairwise (fun a b => strLt a b = true) (sortStrings l) := by
  have hs := sortStrings_sorted l
  have hn := sortStrings_nodup l h
  exact (List.Pairwise.and hs hn).imp (fun hab => strLt_of_le_of_ne _ _ hab.1 hab.2)

theorem strLe_of_strLt (a b : String) (h : strLt a b = true) : strLe a b = true := by
  rw [strLe, Bool.not_eq_true']
  by_contra hc
  rw [Bool.not_eq_false] at hc
  exact charListLt_asymm _ _ h hc

theorem sortStrings_eq_self (l : List String)
    (hs : List.Pairwise (fun a b => strLt a b = true) l) : sortStrings l = l := by
  haveI : IsAntisymm String (fun a b => strLe a b = true) := ⟨fun a b => strLe_antisymm_thm a b⟩
  exact List.eq_of_perm_of_sorted (sortStrings_perm l) (sortStrings_sorted l)
    (hs.imp (fun hab => strLe_of_strLt _ _ hab))

theorem blt_nan_right (a : ERat) : ERat.blt a ERat.nan = false := by
  cases a <;> rfl

theorem foldl_bmax_fin (g : Weather → ERat) (l : List Weather) (q : ℚ)
    (hfin : ∀ w ∈ l, (g w).isFinite = true) :
    l.foldl (fun mx w => if ERat.blt mx (g w) then g w else mx) (ERat.fin q)
      = ERat.fin ((l.map (fun w => (g w).toRat)).foldl max q) := by
  induction l generalizing q with
  | nil => rfl
  | cons w l ih =>
    have hw := hfin w (List.mem_cons_self w l)
    cases hg : g w with
    | fin qw =>
      rw [List.foldl_cons, List.map_cons, List.foldl_cons, hg]
      by_cases hlt : q < qw
      · have hacc : max q ((ERat.fin qw).toRat) = qw := by
          simp only [ERat.toRat]
          exact max_eq_right (le_of_lt hlt)
        rw [if_pos (by simp [ERat.blt, hlt]),
          ih qw (fun x hx => hfin x (List.mem_cons_of_mem w hx)), hacc]
      · have hacc : max q ((ERat.fin qw).toRat) = q := by
          simp only [ERat.toRat]
          exact max_eq_left (le_of_not_lt hlt)
        rw [if_neg (by simp [ERat.blt, hlt]),
          ih q (fun x hx => hfin x (List.mem_cons_of_mem w hx)), hacc]
    | nan => rw [hg] at hw; simp [ERat.isFinite] at hw
    | negInf => rw [hg] at hw; simp [ERat.isFinite] at hw
    | posInf => rw [hg] at hw; simp [ERat.isFinite] at hw

theorem foldl_bmin_fin (g : Weather → ERat) (l : List Weather) (q : ℚ)
    (hfin : ∀ w ∈ l, (g w).isFinite = true) :
    l.foldl (fun mn w => if ERat.blt (g w) mn then g w else mn) (ERat.fin q)
      = ERat.fin ((l.map (fun w => (g w).toRat)).foldl min q) := by
  induction l generalizing q with
  | nil => rfl
  | cons w l ih =>
    have hw := hfin w (List.mem_cons_self w l)
    cases hg : g w with
    | fin qw =>
      rw [List.foldl_cons, List.map_cons, List.foldl_cons, hg]
      by_cases hlt : qw < q
      · have hacc : min q ((ERat.fin qw).toRat) = qw := by
          simp only [ERat.toRat]
          exact min_eq_right (le_of_lt hlt)
        rw [if_pos (by simp [ERat.blt, hlt]),
          ih qw (fun x hx => hfin x (List.mem_cons_of_mem w hx)), hacc]
      · have hacc : min q ((ERat.fin qw).toRat) = q := by
          simp only [ERat.toRat]
          exact min_eq_left (le_of_not_lt hlt)
        rw [if_neg (by simp [ERat.blt, hlt]),
          ih q (fun x hx => hfin x (List.mem_cons_of_mem w hx)), hacc]
    | nan => rw [hg] at hw; simp [ERat.isFinite] at hw
    | negInf => rw [hg] at hw; simp [ERat.isFinite] at hw
    | posInf => rw [hg] at hw; simp [ERat.isFinite] at hw

theorem foldl_badd_fin (g : Weather → ERat) (l : List Weather) (q : ℚ)
    (hfin : ∀ w ∈ l, (g w).isFinite = true) :
    l.foldl (fun acc w => acc.add (g w)) (ERat.fin q)
      = ERat.fin (q + (l.map (fun w => (g w).toRat)).sum) := by
  induction l generalizing q with
  | nil => simp
  | cons w l ih =>
    have hw := hfin w (List.mem_cons_self w l)
    cases hg : g w with
    | fin qw =>
      rw [List.foldl_cons, List.map_cons, hg]
      have hstep : (ERat.fin q).add (ERat.fin qw) = ERat.fin (q + qw) := rfl
      rw [hstep, ih (q + qw) (fun x hx => hfin x (List.mem_cons_of_mem w hx))]
      have hsum : (ERat.fin qw).toRat + (List.map (fun w => (g w).toRat) l).sum
          = ((ERat.fin qw).toRat :: List.map (fun w => (g w).toRat) l).sum := by
        rw [List.sum_cons]
      congr 1
      rw [List.sum_cons]
      simp only [ERat.toRat]
      ring
    | nan => rw [hg] at hw; simp [ERat.isFinite] at hw
    | negInf => rw [hg] at hw; simp [ERat.isFinite] at hw
    | posInf => rw [hg] at hw; simp [ERat.isFinite] at hw

theorem maximumTemperature_fin (B : Forecast) (hne : B ≠ [])
    (hfin : ∀ w ∈ B, w.temperatureMax.isFinite = true) :
    ∃ m, (B.map (fun w => w.temperatureMax.toRat)).max? = some m ∧
      B.maximumTemperature = ERat.fin m := by
  cases B with
  | nil => exact absurd rfl hne
  | cons w B =>
    have hw := hfin w (List.mem_cons_self w B)
    cases hg : w.temperatureMax with
    | fin qw =>
      refine ⟨(B.map (fun w => w.temperatureMax.toRat)).foldl max qw, ?_, ?_⟩
      · show some (((w :: B).map (fun w => w.temperatureMax.toRat)).tail.foldl max
          (w.temperatureMax.toRat)) = _
        rw [List.map_cons, List.tail_cons, hg]
        rfl
      · show (w :: B).foldl
          (fun mx x => if ERat.blt mx x.temperatureMax then x.temperatureMax else mx)
          ERat.negInf = _
        rw [List.foldl_cons, hg]
        have h0 : (if ERat.blt ERat.negInf (ERat.fin qw) then ERat.fin qw else ERat.negInf)
            = ERat.fin qw := rfl
        rw [h0, foldl_bmax_fin (fun w => w.temperatureMax) B qw
          (fun x hx => hfin x (List.mem_cons_of_mem w hx))]
    | nan => rw [hg] at hw; simp [ERat.isFinite] at hw
    | negInf => rw [hg] at hw; simp [ERat.isFinite] at hw
    | posInf => rw [hg] at hw; simp [ERat.isFinite] at hw

theorem minimumTemperature_fin (B : Forecast) (hne : B ≠ [])
    (hfin : ∀ w ∈ B, w.temperatureMin.isFinite = true) :
    ∃ m, (B.map (fun w => w.temperatureMin.toRat)).min? = some m ∧
      B.minimumTemperature = ERat.fin m := by
  cases B with
  | nil => exact absurd rfl hne
  | cons w B =>
    have hw := hfin w (List.mem_cons_self w B)
    cases hg : w.temperatureMin with
    | fin qw =>
      refine ⟨(B.map (fun w => w.temperatureMin.toRat)).foldl min qw, ?_, ?_⟩
      · show some (((w :: B).map (fun w => w.temperatureMin.toRat)).tail.foldl min
          (w.temperatureMin.toRat)) = _
        rw [List.map_cons, List.tail_cons, hg]
        rfl
      · show (w :: B).foldl
          (fun mn x => if ERat.blt x.temperatureMin mn then x.temperatureMin else mn)
          ERat.posInf = _
        rw [List.foldl_cons, hg]
        have h0 : (if ERat.blt (ERat.fin qw) ERat.posInf then ERat.fin qw else ERat.posInf)
            = ERat.fin qw := rfl
        rw [h0, foldl_bmin_fin (fun w => w.temperatureMin) B qw
          (fun x hx => hfin x (List.mem_cons_of_mem w hx))]
    | nan => rw [hg] at hw; simp [ERat.isFinite] at hw
    | negInf => rw [hg] at hw; simp [ERat.isFinite] at hw
    | posInf => rw [hg] at hw; simp [ERat.isFinite] at hw

theorem averageTemperature_fin (B : Forecast) (hne : B ≠ [])
    (hfin : ∀ w ∈ B, w.temperature.isFinite = true) :
    B.averageTemperature
      = ERat.fin ((B.map (fun w => w.temperature.toRat)).sum / (B.length : ℚ)) := by
  rw [Forecast.averageTemperature,
    foldl_badd_fin (fun w => w.temperature) B 0 hfin]
  cases B with
  | nil => exact absurd rfl hne
  | cons w B =>
    have hlen : (w :: B).length = B.length + 1 := rfl
    rw [hlen, ERat.divNat]
    rw [zero_add]

theorem averageHumidity_fin (B : Forecast) (hne : B ≠ [])
    (hfin : ∀ w ∈ B, w.humidity.isFinite = true) :
    B.averageHumidity
      = ERat.fin ((B.map (fun w => w.humidity.toRat)).sum / (B.length : ℚ)) := by
  rw [Forecast.averageHumidity,
    foldl_badd_fin (fun w => w.humidity) B 0 hfin]
  cases B with
  | nil => exact absurd rfl hne
  | cons w B =>
    have hlen : (w :: B).length = B.length + 1 := rfl
    rw [hlen, ERat.divNat]
    rw [zero_add]

theorem daily_eq (f : Forecast) :
    f.daily = (sortStrings (groupByDay f).keys).map (fun key =>
      { date := parseInLocation key ((groupByDay f).loc.getD 0)
        humidity := Forecast.averageHumidity ((lookupDays (groupByDay f).days key).getD [])
        temperature := Forecast.averageTemperature ((lookupDays (groupByDay f).days key).getD [])
        temperatureMin := Forecast.minimumTemperature ((lookupDays (groupByDay f).days key).getD [])
        temperatureMax := Forecast.maximumTemperature ((lookupDays (groupByDay f).days key).getD [])
        : Weather }) := rfl

theorem wallDay_midnight (z off : Int) : wallDay ⟨z * 86400 - off, off⟩ = z := by
  rw [wallDay]
  simp only
  omega

theorem format_wallDay_congr (t1 t2 : Timestamp) (h : wallDay t1 = wallDay t2) :
    formatYYYYMMDD t1 = formatYYYYMMDD t2 := by
  rw [formatYYYYMMDD, formatYYYYMMDD, h]

theorem key_day (f : Forecast) (hr : InRangeForecast f) (k : String)
    (hk : k ∈ (groupByDay f).keys) :
    ∃ z, parseDay k = some z ∧ InRangeDay z ∧ ∃ w ∈ f, dayKey w = k ∧ wallDay w.date = z := by
  rcases (groupByDay_keys_mem f k).mp hk with ⟨w, hw, hkey⟩
  refine ⟨wallDay w.date, ?_, hr w hw, w, hw, hkey, rfl⟩
  rw [← hkey, dayKey]
  exact parseDay_format w.date (hr w hw)

theorem bucket_eq_filter (f : Forecast) (k : String) (hk : k ∈ (groupByDay f).keys) :
    (lookupDays (groupByDay f).days k).getD [] = f.filter (fun w => dayKey w = k)
      ∧ f.filter (fun w => dayKey w = k) ≠ [] := by
  have hs := ((groupByDay_inv f).1 k).mpr hk
  rw [lookup_groupByDay] at hs ⊢
  by_cases h : f.filter (fun w => dayKey w = k) = []
  · rw [if_pos h] at hs
    simp at hs
  · rw [if_neg h]
    exact ⟨rfl, h⟩

theorem dayKey_mk (d : Timestamp) (e1 e2 e3 e4 : ERat) :
    dayKey
      { date := d, temperature := e1, temperatureMin := e2, temperatureMax := e3,
        humidity := e4 }
      = formatYYYYMMDD d := rfl

/-- C2: regardless of input order, Daily's output is sorted strictly
ascending by day key, equivalently in strictly ascending chronological
order of the summary dates. -/
theorem daily_sorted (f : Forecast) (hr : InRangeForecast f) :
    List.Pairwise
      (fun a b => strLt (dayKey a) (dayKey b) = true ∧ a.date.unix < b.date.unix)
      f.daily := by
  rw [daily_eq]
  rw [List.pairwise_map]
  have hpw := sortStrings_pairwise_lt (groupByDay f).keys (groupByDay_inv f).2
  have hmem : ∀ k ∈ sortStrings (groupByDay f).keys, k ∈ (groupByDay f).keys := by
    intro k hk
    exact (sortStrings_mem _ k).mp hk
  apply List.Pairwise.imp_of_mem ?_ hpw
  intro k1 k2 hm1 hm2 hlt
  rcases key_day f hr k1 (hmem k1 hm1) with ⟨z1, hp1, hir1, w1, hw1, hkey1, hwd1⟩
  rcases key_day f hr k2 (hmem k2 hm2) with ⟨z2, hp2, hir2, w2, hw2, hkey2, hwd2⟩
  have hd1 : parseInLocation k1 ((groupByDay f).loc.getD 0)
      = ⟨z1 * 86400 - (groupByDay f).loc.getD 0, (groupByDay f).loc.getD 0⟩ := by
    rw [parseInLocation, hp1]
  have hd2 : parseInLocation k2 ((groupByDay f).loc.getD 0)
      = ⟨z2 * 86400 - (groupByDay f).loc.getD 0, (groupByDay f).loc.getD 0⟩ := by
    rw [parseInLocation, hp2]
  have hz : z1 < z2 := by
    rcases lt_trichotomy z1 z2 with h | h | h
    · exact h
    · exfalso
      have : k1 = k2 := by
        rw [← hkey1, ← hkey2, dayKey, dayKey]
        apply format_wallDay_congr
        rw [hwd1, hwd2, h]
      rw [this, strLt_irrefl] at hlt
      exact Bool.false_ne_true hlt
    · exfalso
      have hlt2 : strLt k2 k1 = true := by
        rw [← hkey1, ← hkey2, dayKey, dayKey]
        exact strLt_format_of_lt w2.date w1.date (hwd2 ▸ hir2) (hwd1 ▸ hir1)
          (by rw [hwd1, hwd2]; exact h)
      exact charListLt_asymm _ _ hlt hlt2
  constructor
  · simp only [dayKey_mk]
    rw [hd1, hd2]
    apply strLt_format_of_lt
    · rw [wallDay_midnight]
      exact hir1
    · rw [wallDay_midnight]
      exact hir2
    · rw [wallDay_midnight, wallDay_midnight]
      exact hz
  · show (parseInLocation k1 ((groupByDay f).loc.getD 0)).unix
      < (parseInLocation k2 ((groupByDay f).loc.getD 0)).unix
    rw [hd1, hd2]
    simp only
    omega

/-- C8: each summary's date is midnight (wall clock) of its bucket's
calendar day, rendered in the zone of the first observation of the whole
forecast, even when observations span multiple zones. -/
theorem daily_dates (f : Forecast) (hne : f ≠ []) (hr : InRangeForecast f) :
    ∀ s ∈ f.daily,
      s.date.offset = (f.head hne).date.offset ∧
      (s.date.unix + s.date.offset) % 86400 = 0 ∧
      ∃ w ∈ f, dayKey w = dayKey s ∧ wallDay s.date = wallDay w.date := by
  intro s hs
  rw [daily_eq] at hs
  rcases List.mem_map.mp hs with ⟨k, hk, hmk⟩
  have hkk : k ∈ (groupByDay f).keys := (sortStrings_mem _ k).mp hk
  rcases key_day f hr k hkk with ⟨z, hp, hirz, w, hw, hkey, hwd⟩
  cases f with
  | nil => exact absurd rfl hne
  | cons w0 rest =>
    have hloc : (groupByDay (w0 :: rest)).loc = some w0.date.offset := by
      rw [groupByDay_loc]
      rfl
    have hoff : (groupByDay (w0 :: rest)).loc.getD 0 = w0.date.offset := by
      rw [hloc]
      rfl
    have hdate : s.date = ⟨z * 86400 - w0.date.offset, w0.date.offset⟩ := by
      rw [← hmk]
      show parseInLocation k ((groupByDay (w0 :: rest)).loc.getD 0) = _
      rw [hoff, parseInLocation, hp]
    refine ⟨?_, ?_, w, hw, ?_, ?_⟩
    · rw [hdate]
      rfl
    · rw [hdate]
      simp only
      omega
    · have hdk : dayKey s = formatYYYYMMDD s.date := rfl
      rw [hkey, hdk, hdate, ← hkey, dayKey]
      apply format_wallDay_congr
      rw [wallDay_midnight, hwd]
    · rw [hdate, wallDay_midnight, hwd]

/-- C4: Daily produces exactly one summary per distinct day key of the
input. -/
theorem daily_length (f : Forecast) :
    f.daily.length = (f.map dayKey).toFinset.card := by
  rw [daily_eq, List.length_map, (sortStrings_perm _).length_eq]
  have hext : (groupByDay f).keys.toFinset = (f.map dayKey).toFinset := by
    apply Finset.ext
    intro k
    rw [List.mem_toFinset, List.mem_toFinset, groupByDay_keys_mem, List.mem_map]
  rw [← List.toFinset_card_of_nodup (groupByDay_inv f).2, hext]

/-- C5: Daily on the empty forecast is the empty forecast, and Daily is a
total operation: every forecast yields a result (there is no error path). -/
theorem daily_total :
    Forecast.daily [] = [] ∧ ∀ f : Forecast, ∃ g : Forecast, f.daily = g :=
  ⟨rfl, fun f => ⟨f.daily, rfl⟩⟩

/-- C6: on an empty forecast the maximum-temperature reducer returns
negative infinity and the minimum-temperature reducer returns positive
infinity, as sentinel values of total functions. -/
theorem reducers_empty :
    Forecast.maximumTemperature [] = ERat.negInf
      ∧ Forecast.minimumTemperature [] = ERat.posInf :=
  ⟨rfl, rfl⟩

/-- C10: GetCurrentWeather never copies the decoded humidity into the
result: the returned Weather's humidity is always the zero value, whatever
humidity the response carries. -/
theorem getCurrentWeather_humidity_zero :
    ∀ (localOffset : Int) (resp : OWCurrentResponse),
      (getCurrentWeather localOffset resp).humidity = ERat.fin 0 :=
  fun _ _ => rfl

theorem join_filter_perm : ∀ (keys : List String) (f : List Weather), keys.Nodup →
    (∀ w ∈ f, dayKey w ∈ keys) →
    ((keys.map (fun k => f.filter (fun w => dayKey w = k))).flatten).Perm f := by
  intro keys
  induction keys with
  | nil =>
    intro f _ hcov
    cases f with
    | nil => simp
    | cons w f => exact absurd (hcov w (List.mem_cons_self w f)) (List.not_mem_nil _)
  | cons k ks ih =>
    intro f hnd hcov
    rw [List.map_cons, List.flatten_cons]
    have hknotin : k ∉ ks := (List.nodup_cons.mp hnd).1
    have hmapeq : ks.map (fun k' => f.filter (fun w => dayKey w = k'))
        = ks.map (fun k' =>
            (f.filter (fun w => !(dayKey w = k))).filter (fun w => dayKey w = k')) := by
      apply List.map_congr_left
      intro k' hk'
      have hne : k' ≠ k := fun hkk => hknotin (hkk ▸ hk')
      rw [List.filter_filter]
      apply List.filter_congr
      intro w hw
      by_cases hcase : dayKey w = k'
      · have hnk : ¬ (dayKey w = k) := fun hk0 => hne (by rw [← hcase, hk0])
        simp [hcase, hnk, hne]
      · simp [hcase]
    rw [hmapeq]
    have hcov2 : ∀ w ∈ f.filter (fun w => !(dayKey w = k)), dayKey w ∈ ks := by
      intro w hw
      rcases List.mem_filter.mp hw with ⟨hwf, hnk⟩
      have := hcov w hwf
      simp only [List.mem_cons] at this
      rcases this with h | h
      · exfalso
        simp only [Bool.not_eq_true', decide_eq_false_iff_not] at hnk
        exact hnk h
      · exact h
    have hperm2 := ih (f.filter (fun w => !(dayKey w = k))) (List.nodup_cons.mp hnd).2 hcov2
    exact List.Perm.trans (List.Perm.append_left _ hperm2) (List.filter_append_perm _ f)

/-- C3: Daily's grouping partitions the input: buckets of distinct keys are
disjoint, together they are a permutation of the input, and two
observations share a bucket exactly when their formatted day keys are
byte-equal. -/
theorem daily_partition (f : Forecast) (hne : f ≠ []) :
    (∀ k1 ∈ (groupByDay f).keys, ∀ k2 ∈ (groupByDay f).keys, k1 ≠ k2 →
      ∀ w ∈ (lookupDays (groupByDay f).days k1).getD [],
        w ∉ (lookupDays (groupByDay f).days k2).getD []) ∧
    ((((groupByDay f).keys.map
        (fun k => (lookupDays (groupByDay f).days k).getD [])).flatten).Perm f) ∧
    (∀ w1 ∈ f, ∀ w2 ∈ f,
      ((∃ k ∈ (groupByDay f).keys,
          w1 ∈ (lookupDays (groupByDay f).days k).getD []
            ∧ w2 ∈ (lookupDays (groupByDay f).days k).getD [])
        ↔ dayKey w1 = dayKey w2)) := by
  refine ⟨?_, ?_, ?_⟩
  · intro k1 hk1 k2 hk2 hne12 w hw1 hw2
    rw [(bucket_eq_filter f k1 hk1).1] at hw1
    rw [(bucket_eq_filter f k2 hk2).1] at hw2
    have e1 : dayKey w = k1 := by simpa using (List.mem_filter.mp hw1).2
    have e2 : dayKey w = k2 := by simpa using (List.mem_filter.mp hw2).2
    exact hne12 (e1 ▸ e2 ▸ rfl)
  · have hmapeq : (groupByDay f).keys.map
        (fun k => (lookupDays (groupByDay f).days k).getD [])
        = (groupByDay f).keys.map (fun k => f.filter (fun w => dayKey w = k)) := by
      apply List.map_congr_left
      intro k hk
      exact (bucket_eq_filter f k hk).1
    rw [hmapeq]
    apply join_filter_perm _ _ (groupByDay_inv f).2
    intro w hw
    exact (groupByDay_keys_mem f (dayKey w)).mpr ⟨w, hw, rfl⟩
  · intro w1 hw1 w2 hw2
    constructor
    · rintro ⟨k, hk, hm1, hm2⟩
      rw [(bucket_eq_filter f k hk).1] at hm1 hm2
      have e1 : dayKey w1 = k := by simpa using (List.mem_filter.mp hm1).2
      have e2 : dayKey w2 = k := by simpa using (List.mem_filter.mp hm2).2
      rw [e1, e2]
    · intro heq
      have hk : dayKey w1 ∈ (groupByDay f).keys :=
        (groupByDay_keys_mem f (dayKey w1)).mpr ⟨w1, hw1, rfl⟩
      refine ⟨dayKey w1, hk, ?_, ?_⟩
      · rw [(bucket_eq_filter f _ hk).1]
        rw [List.mem_filter]
        exact ⟨hw1, by simp⟩
      · rw [(bucket_eq_filter f _ hk).1]
        rw [List.mem_filter]
        exact ⟨hw2, by simp [heq]⟩

/-- C1: each Daily summary's temperature-max is the maximum of its
bucket's temperature-max values, its temperature-min the minimum of the
bucket's temperature-min values, and its temperature and humidity the
arithmetic means of the bucket's temperature and humidity values, all four
over the same bucket. -/
theorem daily_aggregates (f : Forecast) (hfin : AllFinite f) (hr : InRangeForecast f) :
    ∀ s ∈ f.daily, ∃ k m mn,
      k = dayKey s ∧
      f.filter (fun w => dayKey w = k) ≠ [] ∧
      ((f.filter (fun w => dayKey w = k)).map (fun w => w.temperatureMax.toRat)).max?
        = some m ∧
      s.temperatureMax = ERat.fin m ∧
      ((f.filter (fun w => dayKey w = k)).map (fun w => w.temperatureMin.toRat)).min?
        = some mn ∧
      s.temperatureMin = ERat.fin mn ∧
      s.temperature
        = ERat.fin (((f.filter (fun w => dayKey w = k)).map (fun w => w.temperature.toRat)).sum
            / ((f.filter (fun w => dayKey w = k)).length : ℚ)) ∧
      s.humidity
        = ERat.fin (((f.filter (fun w => dayKey w = k)).map (fun w => w.humidity.toRat)).sum
            / ((f.filter (fun w => dayKey w = k)).length : ℚ)) := by
  intro s hs
  rw [daily_eq] at hs
  rcases List.mem_map.mp hs with ⟨k, hk, hmk⟩
  have hkmem : k ∈ (groupByDay f).keys := (sortStrings_mem _ k).mp hk
  rcases key_day f hr k hkmem with ⟨z, hp, hirz, w, hw, hkey, hwd⟩
  have hks : k = dayKey s := by
    rw [← hmk]
    show k = dayKey
      { date := parseInLocation k ((groupByDay f).loc.getD 0)
        humidity := Forecast.averageHumidity ((lookupDays (groupByDay f).days k).getD [])
        temperature := Forecast.averageTemperature ((lookupDays (groupByDay f).days k).getD [])
        temperatureMin := Forecast.minimumTemperature ((lookupDays (groupByDay f).days k).getD [])
        temperatureMax := Forecast.maximumTemperature ((lookupDays (groupByDay f).days k).getD [])
        : Weather }
    rw [dayKey_mk]
    have hpl : parseInLocation k ((groupByDay f).loc.getD 0)
        = ⟨z * 86400 - (groupByDay f).loc.getD 0, (groupByDay f).loc.getD 0⟩ := by
      rw [parseInLocation, hp]
    rw [hpl, ← hkey, dayKey]
    symm
    apply format_wallDay_congr
    rw [wallDay_midnight, hwd]
  obtain ⟨hbucket, hbne⟩ := bucket_eq_filter f k hkmem
  have hsub : ∀ w ∈ f.filter (fun w => dayKey w = k), w ∈ f :=
    fun w hw => (List.mem_filter.mp hw).1
  obtain ⟨m, hmax, hmaxval⟩ := maximumTemperature_fin (f.filter (fun w => dayKey w = k)) hbne
    (fun w hw => (hfin w (hsub w hw)).2.2.1)
  obtain ⟨mn, hmin, hminval⟩ := minimumTemperature_fin (f.filter (fun w => dayKey w = k)) hbne
    (fun w hw => (hfin w (hsub w hw)).2.1)
  have havgT := averageTemperature_fin (f.filter (fun w => dayKey w = k)) hbne
    (fun w hw => (hfin w (hsub w hw)).1)
  have havgH := averageHumidity_fin (f.filter (fun w => dayKey w = k)) hbne
    (fun w hw => (hfin w (hsub w hw)).2.2.2)
  refine ⟨k, m, mn, hks, hbne, hmax, ?_, hmin, ?_, ?_, ?_⟩
  · rw [← hmk]
    show Forecast.maximumTemperature ((lookupDays (groupByDay f).days k).getD []) = ERat.fin m
    rw [hbucket]
    exact hmaxval
  · rw [← hmk]
    show Forecast.minimumTemperature ((lookupDays (groupByDay f).days k).getD []) = ERat.fin mn
    rw [hbucket]
    exact hminval
  · rw [← hmk]
    show Forecast.averageTemperature ((lookupDays (groupByDay f).days k).getD []) = _
    rw [hbucket]
    exact havgT
  · rw [← hmk]
    show Forecast.averageHumidity ((lookupDays (groupByDay f).days k).getD []) = _
    rw [hbucket]
    exact havgH

theorem maximumTemperature_ne_nan (B : Forecast) : B.maximumTemperature ≠ ERat.nan := by
  rw [Forecast.maximumTemperature]
  have key : ∀ (l : List Weather) (a : ERat), a ≠ ERat.nan →
      l.foldl (fun mx w => if ERat.blt mx w.temperatureMax then w.temperatureMax else mx) a
        ≠ ERat.nan := by
    intro l
    induction l with
    | nil => intro a ha; exact ha
    | cons w l ih =>
      intro a ha
      rw [List.foldl_cons]
      by_cases hb : ERat.blt a w.temperatureMax = true
      · rw [if_pos hb]
        apply ih
        intro hnan
        rw [hnan, blt_nan_right] at hb
        exact Bool.false_ne_true hb
      · rw [if_neg hb]
        exact ih a ha
  exact key B ERat.negInf (by intro h; cases h)

theorem minimumTemperature_ne_nan (B : Forecast) : B.minimumTemperature ≠ ERat.nan := by
  rw [Forecast.minimumTemperature]
  have key : ∀ (l : List Weather) (a : ERat), a ≠ ERat.nan →
      l.foldl (fun mn w => if ERat.blt w.temperatureMin mn then w.temperatureMin else mn) a
        ≠ ERat.nan := by
    intro l
    induction l with
    | nil => intro a ha; exact ha
    | cons w l ih =>
      intro a ha
      rw [List.foldl_cons]
      by_cases hb : ERat.blt w.temperatureMin a = true
      · rw [if_pos hb]
        apply ih
        intro hnan
        rw [hnan] at hb
        have hf : ERat.blt ERat.nan a = false := by cases a <;> rfl
        rw [hf] at hb
        exact Bool.false_ne_true hb
      · rw [if_neg hb]
        exact ih a ha
  exact key B ERat.posInf (by intro h; cases h)

theorem maximumTemperature_singleton (w : Weather) (h : w.temperatureMax ≠ ERat.nan) :
    Forecast.maximumTemperature [w] = w.temperatureMax := by
  rw [Forecast.maximumTemperature]
  cases hg : w.temperatureMax with
  | nan => exact absurd hg h
  | negInf => rw [List.foldl_cons, hg]; rfl
  | posInf => rw [List.foldl_cons, hg]; rfl
  | fin q => rw [List.foldl_cons, hg]; rfl

theorem minimumTemperature_singleton (w : Weather) (h : w.temperatureMin ≠ ERat.nan) :
    Forecast.minimumTemperature [w] = w.temperatureMin := by
  rw [Forecast.minimumTemperature]
  cases hg : w.temperatureMin with
  | nan => exact absurd hg h
  | negInf => rw [List.foldl_cons, hg]; rfl
  | posInf => rw [List.foldl_cons, hg]; rfl
  | fin q => rw [List.foldl_cons, hg]; rfl

theorem averageTemperature_singleton (w : Weather) :
    Forecast.averageTemperature [w] = w.temperature := by
  rw [Forecast.averageTemperature]
  cases hg : w.temperature with
  | nan => rw [List.foldl_cons, hg]; rfl
  | negInf => rw [List.foldl_cons, hg]; rfl
  | posInf => rw [List.foldl_cons, hg]; rfl
  | fin q =>
    rw [List.foldl_cons, hg]
    show ERat.divNat (ERat.fin (0 + q)) 1 = ERat.fin q
    rw [zero_add, ERat.divNat]
    norm_num

theorem averageHumidity_singleton (w : Weather) :
    Forecast.averageHumidity [w] = w.humidity := by
  rw [Forecast.averageHumidity]
  cases hg : w.humidity with
  | nan => rw [List.foldl_cons, hg]; rfl
  | negInf => rw [List.foldl_cons, hg]; rfl
  | posInf => rw [List.foldl_cons, hg]; rfl
  | fin q =>
    rw [List.foldl_cons, hg]
    show ERat.divNat (ERat.fin (0 + q)) 1 = ERat.fin q
    rw [zero_add, ERat.divNat]
    norm_num

theorem daily_keys (f : Forecast) (hr : InRangeForecast f) :
    f.daily.map dayKey = sortStrings (groupByDay f).keys := by
  rw [daily_eq, List.map_map]
  have hid : ∀ k ∈ sortStrings (groupByDay f).keys,
      (dayKey ∘ fun key =>
        { date := parseInLocation key ((groupByDay f).loc.getD 0)
          humidity := Forecast.averageHumidity ((lookupDays (groupByDay f).days key).getD [])
          temperature := Forecast.averageTemperature ((lookupDays (groupByDay f).days key).getD [])
          temperatureMin := Forecast.minimumTemperature ((lookupDays (groupByDay f).days key).getD [])
          temperatureMax := Forecast.maximumTemperature ((lookupDays (groupByDay f).days key).getD [])
          : Weather }) k = k := by
    intro k hk
    rcases key_day f hr k ((sortStrings_mem _ k).mp hk) with ⟨z, hp, hirz, w, hw, hkey, hwd⟩
    show dayKey
      { date := parseInLocation k ((groupByDay f).loc.getD 0)
        humidity := Forecast.averageHumidity ((lookupDays (groupByDay f).days k).getD [])
        temperature := Forecast.averageTemperature ((lookupDays (groupByDay f).days k).getD [])
        temperatureMin := Forecast.minimumTemperature ((lookupDays (groupByDay f).days k).getD [])
        temperatureMax := Forecast.maximumTemperature ((lookupDays (groupByDay f).days k).getD [])
        : Weather } = k
    rw [dayKey_mk]
    have hpl : parseInLocation k ((groupByDay f).loc.getD 0)
        = ⟨z * 86400 - (groupByDay f).loc.getD 0, (groupByDay f).loc.getD 0⟩ := by
      rw [parseInLocation, hp]
    rw [hpl, ← hkey, dayKey]
    apply format_wallDay_congr
    rw [wallDay_midnight, hwd]
  rw [List.map_congr_left hid]
  simp

theorem filter_eq_singleton (l : List Weather) (hnd : (l.map dayKey).Nodup) :
    ∀ w ∈ l, l.filter (fun x => dayKey x = dayKey w) = [w] := by
  induction l with
  | nil => intro w hw; exact absurd hw (List.not_mem_nil _)
  | cons a l ih =>
    intro w hw
    rw [List.map_cons, List.nodup_cons] at hnd
    rcases List.mem_cons.mp hw with h | h
    · subst h
      rw [List.filter_cons]
      rw [if_pos (by simp)]
      congr 1
      rw [List.filter_eq_nil_iff]
      intro x hx
      simp only [decide_eq_true_eq]
      intro hkx
      exact hnd.1 (hkx ▸ List.mem_map_of_mem dayKey hx)
    · rw [List.filter_cons]
      have hne : ¬ (dayKey a = dayKey w) := by
        intro hk
        exact hnd.1 (hk ▸ List.mem_map_of_mem dayKey h)
      rw [if_neg (by simpa using hne)]
      exact ih hnd.2 w h

theorem groupFold_keys_of_new : ∀ (l : List Weather) (st : GroupState),
    (∀ k, (lookupDays st.days k).isSome = true ↔ k ∈ st.keys) → st.keys.Nodup →
    (∀ w ∈ l, dayKey w ∉ st.keys) → (l.map dayKey).Nodup →
    (l.foldl groupStep st).keys = st.keys ++ l.map dayKey := by
  intro l
  induction l with
  | nil =>
    intro st _ _ _ _
    simp
  | cons w l ih =>
    intro st hinv hnd hnew hlnd
    rw [List.foldl_cons]
    have hnot : ¬ ((lookupDays st.days (dayKey w)).isSome = true) := by
      intro hs
      exact hnew w (List.mem_cons_self w l) ((hinv (dayKey w)).mp hs)
    have hkeys : (groupStep st w).keys = st.keys ++ [dayKey w] := by
      show (if (lookupDays st.days (dayKey w)).isSome then st.keys
        else st.keys ++ [dayKey w]) = st.keys ++ [dayKey w]
      rw [if_neg (by simpa using hnot)]
    have hinv' := groupFold_keys_inv [w] st hinv hnd
    rw [List.map_cons, List.nodup_cons] at hlnd
    have hstep : List.foldl groupStep st [w] = groupStep st w := rfl
    rw [hstep] at hinv'
    have := ih (groupStep st w) hinv'.1 hinv'.2 ?_ hlnd.2
    · rw [this, hkeys, List.map_cons, List.append_assoc]
      rfl
    · intro x hx
      rw [hkeys, List.mem_append, List.mem_singleton]
      rintro (h | h)
      · exact hnew x (List.mem_cons_of_mem w hx) h
      · exact hlnd.1 (h ▸ List.mem_map_of_mem dayKey hx)

theorem groupByDay_keys_of_nodup (l : List Weather) (hnd : (l.map dayKey).Nodup) :
    (groupByDay l).keys = l.map dayKey := by
  rw [groupByDay, groupFold_keys_of_new l ⟨none, [], []⟩ (by intro k; simp [lookupDays])
    List.nodup_nil (by intro w _; exact List.not_mem_nil _) hnd]
  rfl

/-- C7: Daily is idempotent: applying Daily to its own output returns the
same sequence, since each day then holds exactly one summary whose fields
are trivial aggregates of themselves. -/
theorem daily_idempotent (f : Forecast) (hr : InRangeForecast f) :
    f.daily.daily = f.daily := by
  cases f with
  | nil => rfl
  | cons w0 rest =>
    have hkeysD : (Forecast.daily (w0 :: rest)).map dayKey = sortStrings (groupByDay (w0 :: rest)).keys :=
      daily_keys _ hr
    have hndD : ((Forecast.daily (w0 :: rest)).map dayKey).Nodup := by
      rw [hkeysD]
      exact sortStrings_nodup _ (groupByDay_inv _).2
    have hpwD : List.Pairwise (fun a b => strLt a b = true) ((Forecast.daily (w0 :: rest)).map dayKey) := by
      rw [hkeysD]
      exact sortStrings_pairwise_lt _ (groupByDay_inv _).2
    have hkeys2 : (groupByDay (Forecast.daily (w0 :: rest))).keys = (Forecast.daily (w0 :: rest)).map dayKey :=
      groupByDay_keys_of_nodup _ hndD
    have hsorted2 : sortStrings (groupByDay (Forecast.daily (w0 :: rest))).keys
        = (Forecast.daily (w0 :: rest)).map dayKey := by
      rw [hkeys2]
      exact sortStrings_eq_self _ hpwD
    have hne : (Forecast.daily (w0 :: rest)) ≠ [] := by
      intro hD
      have h0 : dayKey w0 ∈ (groupByDay (w0 :: rest)).keys :=
        (groupByDay_keys_mem _ _).mpr ⟨w0, List.mem_cons_self w0 rest, rfl⟩
      have : sortStrings (groupByDay (w0 :: rest)).keys = [] := by
        rw [← hkeysD, hD]
        rfl
      rw [← sortStrings_mem, this] at h0
      exact List.not_mem_nil _ h0
    have hoff1 : (groupByDay (w0 :: rest)).loc.getD 0 = w0.date.offset := by
      rw [groupByDay_loc]
      rfl
    have hoff2 : (groupByDay (Forecast.daily (w0 :: rest))).loc.getD 0 = w0.date.offset := by
      rw [groupByDay_loc]
      cases hD : (Forecast.daily (w0 :: rest)) with
      | nil => exact absurd hD hne
      | cons s0 D' =>
        have hs0 : s0 ∈ (Forecast.daily (w0 :: rest)) := by
          rw [hD]
          exact List.mem_cons_self s0 D'
        have := (daily_dates (w0 :: rest) (by intro h; cases h) hr s0 hs0).1
        show s0.date.offset = w0.date.offset
        exact this
    have hone : ∀ s ∈ (Forecast.daily (w0 :: rest)),
        ((fun key =>
          { date := parseInLocation key ((groupByDay (Forecast.daily (w0 :: rest))).loc.getD 0)
            humidity := Forecast.averageHumidity
              ((lookupDays (groupByDay (Forecast.daily (w0 :: rest))).days key).getD [])
            temperature := Forecast.averageTemperature
              ((lookupDays (groupByDay (Forecast.daily (w0 :: rest))).days key).getD [])
            temperatureMin := Forecast.minimumTemperature
              ((lookupDays (groupByDay (Forecast.daily (w0 :: rest))).days key).getD [])
            temperatureMax := Forecast.maximumTemperature
              ((lookupDays (groupByDay (Forecast.daily (w0 :: rest))).days key).getD [])
            : Weather }) ∘ dayKey) s = s := by
      intro s hs
      have hmem2 : dayKey s ∈ (groupByDay (Forecast.daily (w0 :: rest))).keys := by
        rw [hkeys2]
        exact List.mem_map_of_mem dayKey hs
      have hbucket2 : (lookupDays (groupByDay (Forecast.daily (w0 :: rest))).days (dayKey s)).getD []
          = [s] := by
        rw [(bucket_eq_filter _ _ hmem2).1]
        exact filter_eq_singleton _ hndD s hs
      rw [daily_eq] at hs
      rcases List.mem_map.mp hs with ⟨k, hk, hmk⟩
      rcases key_day (w0 :: rest) hr k ((sortStrings_mem _ k).mp hk)
        with ⟨z, hp, hirz, w, hw, hkey, hwd⟩
      have hpl : parseInLocation k ((groupByDay (w0 :: rest)).loc.getD 0)
          = ⟨z * 86400 - w0.date.offset, w0.date.offset⟩ := by
        rw [hoff1, parseInLocation, hp]
      have hsdate : s.date = ⟨z * 86400 - w0.date.offset, w0.date.offset⟩ := by
        rw [← hmk]
        show parseInLocation k ((groupByDay (w0 :: rest)).loc.getD 0) = _
        exact hpl
      have hdks : dayKey s = k := by
        have hdk : dayKey s = formatYYYYMMDD s.date := rfl
        rw [hdk, hsdate, ← hkey, dayKey]
        symm
        apply format_wallDay_congr
        rw [wallDay_midnight, hwd]
      have hsmax : s.temperatureMax
          = Forecast.maximumTemperature
            ((lookupDays (groupByDay (w0 :: rest)).days k).getD []) := by
        rw [← hmk]
      have hsmin : s.temperatureMin
          = Forecast.minimumTemperature
            ((lookupDays (groupByDay (w0 :: rest)).days k).getD []) := by
        rw [← hmk]
      show ({ date := parseInLocation (dayKey s) ((groupByDay (Forecast.daily (w0 :: rest))).loc.getD 0)
              humidity := Forecast.averageHumidity
                ((lookupDays (groupByDay (Forecast.daily (w0 :: rest))).days (dayKey s)).getD [])
              temperature := Forecast.averageTemperature
                ((lookupDays (groupByDay (Forecast.daily (w0 :: rest))).days (dayKey s)).getD [])
              temperatureMin := Forecast.minimumTemperature
                ((lookupDays (groupByDay (Forecast.daily (w0 :: rest))).days (dayKey s)).getD [])
              temperatureMax := Forecast.maximumTemperature
                ((lookupDays (groupByDay (Forecast.daily (w0 :: rest))).days (dayKey s)).getD [])
              : Weather }) = s
      rw [hbucket2, hoff2, hdks]
      have hdate2 : parseInLocation k w0.date.offset
          = ⟨z * 86400 - w0.date.offset, w0.date.offset⟩ := by
        rw [parseInLocation, hp]
      rw [hdate2, averageHumidity_singleton, averageTemperature_singleton,
        minimumTemperature_singleton s (by rw [hsmin]; exact minimumTemperature_ne_nan _),
        maximumTemperature_singleton s (by rw [hsmax]; exact maximumTemperature_ne_nan _),
        ← hsdate]
    calc (Forecast.daily (w0 :: rest)).daily
        = (sortStrings (groupByDay (Forecast.daily (w0 :: rest))).keys).map (fun key =>
            { date := parseInLocation key ((groupByDay (Forecast.daily (w0 :: rest))).loc.getD 0)
              humidity := Forecast.averageHumidity
                ((lookupDays (groupByDay (Forecast.daily (w0 :: rest))).days key).getD [])
              temperature := Forecast.averageTemperature
                ((lookupDays (groupByDay (Forecast.daily (w0 :: rest))).days key).getD [])
              temperatureMin := Forecast.minimumTemperature
                ((lookupDays (groupByDay (Forecast.daily (w0 :: rest))).days key).getD [])
              temperatureMax := Forecast.maximumTemperature
                ((lookupDays (groupByDay (Forecast.daily (w0 :: rest))).days key).getD [])
              : Weather }) := daily_eq _
      _ = ((Forecast.daily (w0 :: rest)).map dayKey).map (fun key =>
            { date := parseInLocation key ((groupByDay (Forecast.daily (w0 :: rest))).loc.getD 0)
              humidity := Forecast.averageHumidity
                ((lookupDays (groupByDay (Forecast.daily (w0 :: rest))).days key).getD [])
              temperature := Forecast.averageTemperature
                ((lookupDays (groupByDay (Forecast.daily (w0 :: rest))).days key).getD [])
              temperatureMin := Forecast.minimumTemperature
                ((lookupDays (groupByDay (Forecast.daily (w0 :: rest))).days key).getD [])
              temperatureMax := Forecast.maximumTemperature
                ((lookupDays (groupByDay (Forecast.daily (w0 :: rest))).days key).getD [])
              : Weather }) := by rw [hsorted2]
      _ = (Forecast.daily (w0 :: rest)).map ((fun key =>
            { date := parseInLocation key ((groupByDay (Forecast.daily (w0 :: rest))).loc.getD 0)
              humidity := Forecast.averageHumidity
                ((lookupDays (groupByDay (Forecast.daily (w0 :: rest))).days key).getD [])
              temperature := Forecast.averageTemperature
                ((lookupDays (groupByDay (Forecast.daily (w0 :: rest))).days key).getD [])
              temperatureMin := Forecast.minimumTemperature
                ((lookupDays (groupByDay (Forecast.daily (w0 :: rest))).days key).getD [])
              temperatureMax := Forecast.maximumTemperature
                ((lookupDays (groupByDay (Forecast.daily (w0 :: rest))).days key).getD [])
              : Weather }) ∘ dayKey) := List.map_map _ _ _
      _ = (Forecast.daily (w0 :: rest)).map id := List.map_congr_left hone
      _ = (Forecast.daily (w0 :: rest)) := List.map_id _

/-- Witness for C1 at the spec's worked single-day example: the unique
summary of the 2024-01-01 bucket. -/
theorem daily_aggregates_witness :
    ∃ k m mn,
      k = dayKey
        ({ date := parseInLocation "20240101" ((groupByDay exampleOneDay).loc.getD 0)
           humidity := Forecast.averageHumidity
             ((lookupDays (groupByDay exampleOneDay).days "20240101").getD [])
           temperature := Forecast.averageTemperature
             ((lookupDays (groupByDay exampleOneDay).days "20240101").getD [])
           temperatureMin := Forecast.minimumTemperature
             ((lookupDays (groupByDay exampleOneDay).days "20240101").getD [])
           temperatureMax := Forecast.maximumTemperature
             ((lookupDays (groupByDay exampleOneDay).days "20240101").getD [])
           : Weather }) ∧
      exampleOneDay.filter (fun w => dayKey w = k) ≠ [] ∧
      ((exampleOneDay.filter (fun w => dayKey w = k)).map
        (fun w => w.temperatureMax.toRat)).max? = some m ∧
      ({ date := parseInLocation "20240101" ((groupByDay exampleOneDay).loc.getD 0)
         humidity := Forecast.averageHumidity
           ((lookupDays (groupByDay exampleOneDay).days "20240101").getD [])
         temperature := Forecast.averageTemperature
           ((lookupDays (groupByDay exampleOneDay).days "20240101").getD [])
         temperatureMin := Forecast.minimumTemperature
           ((lookupDays (groupByDay exampleOneDay).days "20240101").getD [])
         temperatureMax := Forecast.maximumTemperature
           ((lookupDays (groupByDay exampleOneDay).days "20240101").getD [])
         : Weather }).temperatureMax = ERat.fin m ∧
      ((exampleOneDay.filter (fun w => dayKey w = k)).map
        (fun w => w.temperatureMin.toRat)).min? = some mn ∧
      ({ date := parseInLocation "20240101" ((groupByDay exampleOneDay).loc.getD 0)
         humidity := Forecast.averageHumidity
           ((lookupDays (groupByDay exampleOneDay).days "20240101").getD [])
         temperature := Forecast.averageTemperature
           ((lookupDays (groupByDay exampleOneDay).days "20240101").getD [])
         temperatureMin := Forecast.minimumTemperature
           ((lookupDays (groupByDay exampleOneDay).days "20240101").getD [])
         temperatureMax := Forecast.maximumTemperature
           ((lookupDays (groupByDay exampleOneDay).days "20240101").getD [])
         : Weather }).temperatureMin = ERat.fin mn ∧
      ({ date := parseInLocation "20240101" ((groupByDay exampleOneDay).loc.getD 0)
         humidity := Forecast.averageHumidity
           ((lookupDays (groupByDay exampleOneDay).days "20240101").getD [])
         temperature := Forecast.averageTemperature
           ((lookupDays (groupByDay exampleOneDay).days "20240101").getD [])
         temperatureMin := Forecast.minimumTemperature
           ((lookupDays (groupByDay exampleOneDay).days "20240101").getD [])
         temperatureMax := Forecast.maximumTemperature
           ((lookupDays (groupByDay exampleOneDay).days "20240101").getD [])
         : Weather }).temperature
        = ERat.fin (((exampleOneDay.filter (fun w => dayKey w = k)).map
            (fun w => w.temperature.toRat)).sum
            / ((exampleOneDay.filter (fun w => dayKey w = k)).length : ℚ)) ∧
      ({ date := parseInLocation "20240101" ((groupByDay exampleOneDay).loc.getD 0)
         humidity := Forecast.averageHumidity
           ((lookupDays (groupByDay exampleOneDay).days "20240101").getD [])
         temperature := Forecast.averageTemperature
           ((lookupDays (groupByDay exampleOneDay).days "20240101").getD [])
         temperatureMin := Forecast.minimumTemperature
           ((lookupDays (groupByDay exampleOneDay).days "20240101").getD [])
         temperatureMax := Forecast.maximumTemperature
           ((lookupDays (groupByDay exampleOneDay).days "20240101").getD [])
         : Weather }).humidity
        = ERat.fin (((exampleOneDay.filter (fun w => dayKey w = k)).map
            (fun w => w.humidity.toRat)).sum
            / ((exampleOneDay.filter (fun w => dayKey w = k)).length : ℚ)) :=
  daily_aggregates exampleOneDay (by decide) (by decide)
    { date := parseInLocation "20240101" ((groupByDay exampleOneDay).loc.getD 0)
      humidity := Forecast.averageHumidity
        ((lookupDays (groupByDay exampleOneDay).days "20240101").getD [])
      temperature := Forecast.averageTemperature
        ((lookupDays (groupByDay exampleOneDay).days "20240101").getD [])
      temperatureMin := Forecast.minimumTemperature
        ((lookupDays (groupByDay exampleOneDay).days "20240101").getD [])
      temperatureMax := Forecast.maximumTemperature
        ((lookupDays (groupByDay exampleOneDay).days "20240101").getD [])
      : Weather }
    (by rw [daily_eq]
        exact List.mem_map_of_mem _
          (by decide : ("20240101" : String) ∈ sortStrings (groupByDay exampleOneDay).keys))

/-- Witness for C2: observations dated Jan 3, Jan 1, Jan 2 of 2024 in that
input order come out sorted ascending. -/
theorem daily_sorted_witness :
    List.Pairwise
      (fun a b => strLt (dayKey a) (dayKey b) = true ∧ a.date.unix < b.date.unix)
      (Forecast.daily exampleThreeDays) :=
  daily_sorted exampleThreeDays (by decide)

/-- Witness for C3 at the three-day example forecast. -/
theorem daily_partition_witness :
    (∀ k1 ∈ (groupByDay exampleThreeDays).keys, ∀ k2 ∈ (groupByDay exampleThreeDays).keys,
      k1 ≠ k2 →
      ∀ w ∈ (lookupDays (groupByDay exampleThreeDays).days k1).getD [],
        w ∉ (lookupDays (groupByDay exampleThreeDays).days k2).getD []) ∧
    ((((groupByDay exampleThreeDays).keys.map
        (fun k => (lookupDays (groupByDay exampleThreeDays).days k).getD [])).flatten).Perm
      exampleThreeDays) ∧
    (∀ w1 ∈ exampleThreeDays, ∀ w2 ∈ exampleThreeDays,
      ((∃ k ∈ (groupByDay exampleThreeDays).keys,
          w1 ∈ (lookupDays (groupByDay exampleThreeDays).days k).getD []
            ∧ w2 ∈ (lookupDays (groupByDay exampleThreeDays).days k).getD [])
        ↔ dayKey w1 = dayKey w2)) :=
  daily_partition exampleThreeDays (by decide)

/-- Witness for C7 at the three-day example forecast. -/
theorem daily_idempotent_witness :
    (Forecast.daily exampleThreeDays).daily = Forecast.daily exampleThreeDays :=
  daily_idempotent exampleThreeDays (by decide)

/-- Witness for C8 at the three-day example forecast, instantiated at the
2024-01-01 summary. -/
theorem daily_dates_witness :
    sample20240101.date.offset = (exampleThreeDays.head (by decide)).date.offset ∧
    (sample20240101.date.unix + sample20240101.date.offset) % 86400 = 0 ∧
    ∃ w ∈ exampleThreeDays,
      dayKey w = dayKey sample20240101 ∧
      wallDay sample20240101.date = wallDay w.date :=
  daily_dates exampleThreeDays (by decide) (by decide) sample20240101
    (by rw [daily_eq]
        exact List.mem_map_of_mem _
          (by decide : ("20240101" : String) ∈ sortStrings (groupByDay exampleThreeDays).keys))
